import Mathlib

/-!
# Room distribution allocator: embedding and verification

A shallow embedding of the room-distribution allocator:

* `RoomBox` (`src/models/RoomBox.ts`): a per-room occupant counter with
  capacity-saturating add operations.  The TypeScript class mutates itself;
  here each operation returns the updated box together with the count
  actually added.
* `RoomAllocator.distribute` (`src/types/Room.ts`): feasibility checks,
  the senior-only-room quota heuristic, greedy placement sweeps and the
  final sort.  The imperative `while (remaining > 0)` sweep loops are
  embedded as recursion on a fuel argument equal to the remaining count;
  `sweepLoop_eq` proves the loop's defining equation, so the embedding is
  extensionally the source loop.

All inputs are taken as natural numbers, matching the spec's domain of
non-negative integers.
-/

/-- Modelled from the spec: the configured per-room capacity
`ROOM_CAPACITY`, declared in `src/constants/limits` (a file not among the
sources).  The spec fixes its default value to 4. -/
def ROOM_CAPACITY : Nat := 4

/-- Output-facing immutable room record (`src/types/Room.ts`). -/
structure Room where
  adults : Nat
  seniors : Nat
  children : Nat
deriving DecidableEq, Repr

/-- Occupant counter for a single room (`src/models/RoomBox.ts`); fields
start at 0.  Mutation is made explicit: each add operation returns the
updated box. -/
structure RoomBox where
  adults : Nat := 0
  seniors : Nat := 0
  children : Nat := 0
deriving DecidableEq, Repr

namespace RoomBox

/-- A freshly constructed `RoomBox` (`new RoomBox()`): all counts 0. -/
def init : RoomBox := {}

/-- `get total()`: current occupancy. -/
def total (r : RoomBox) : Nat := r.adults + r.seniors + r.children

/-- `get remainingCapacity()`: spare places, `ROOM_CAPACITY - total`. -/
def remainingCapacity (r : RoomBox) : Nat := ROOM_CAPACITY - r.total

/-- `addAdults(count)`: adds `min count remainingCapacity` adults and
returns the number actually added. -/
def addAdults (r : RoomBox) (count : Nat) : RoomBox × Nat :=
  let canAdd := min count r.remainingCapacity
  ({ r with adults := r.adults + canAdd }, canAdd)

/-- `addSeniors(count)`: adds `min count remainingCapacity` seniors and
returns the number actually added. -/
def addSeniors (r : RoomBox) (count : Nat) : RoomBox × Nat :=
  let canAdd := min count r.remainingCapacity
  ({ r with seniors := r.seniors + canAdd }, canAdd)

/-- `addChildren(count)`: adds `min count remainingCapacity` children and
returns the number actually added. -/
def addChildren (r : RoomBox) (count : Nat) : RoomBox × Nat :=
  let canAdd := min count r.remainingCapacity
  ({ r with children := r.children + canAdd }, canAdd)

/-- `toRoom()`: snapshot the counts into an immutable `Room`. -/
def toRoom (r : RoomBox) : Room := ⟨r.adults, r.seniors, r.children⟩

end RoomBox

namespace RoomAllocator

/-- `RoomAllocator.isFeasible`: the Phase-0 feasibility checks. -/
def isFeasible (roomCount numAdults numSeniors numChildren : Nat) : Bool :=
  let totalPeople := numAdults + numSeniors + numChildren
  if roomCount ≤ 0 then false
  else if totalPeople < roomCount then false
  else if totalPeople > roomCount * ROOM_CAPACITY then false
  else if 0 < numChildren ∧ numAdults + numSeniors = 0 then false
  else true

/-- `RoomAllocator.ceilDiv`: `⌊(a + b - 1) / b⌋`. -/
def ceilDiv (a b : Nat) : Nat := (a + b - 1) / b

/-- The shrink loop of `pickSeniorOnlyRoomCount`: while the quota is
positive and the adults plus the seniors left over after filling the
senior-only rooms cannot anchor every remaining room, decrement the
quota. -/
def shrinkQuota (roomCount numAdults numSeniors : Nat) : Nat → Nat
  | 0 => 0
  | q + 1 =>
    let seniorsInSeniorRooms := min numSeniors ((q + 1) * ROOM_CAPACITY)
    let seniorsLeft := numSeniors - seniorsInSeniorRooms
    let roomsLeft := roomCount - (q + 1)
    if numAdults + seniorsLeft ≥ roomsLeft then q + 1
    else shrinkQuota roomCount numAdults numSeniors q

/-- `RoomAllocator.pickSeniorOnlyRoomCount`: the Phase-1 senior-only room
quota.  `roomCount - roomsNeededForNonSeniors` on `Nat` is the source's
`Math.max(0, roomCount - roomsNeededForNonSeniors)`. -/
def pickSeniorOnlyRoomCount (roomCount numAdults numSeniors numChildren : Nat) : Nat :=
  let roomsNeededForNonSeniors := ceilDiv (numAdults + numChildren) ROOM_CAPACITY
  let maxSpareRooms := roomCount - roomsNeededForNonSeniors
  shrinkQuota roomCount numAdults numSeniors
    (min maxSpareRooms (ceilDiv numSeniors ROOM_CAPACITY))

/-- Phase 3/4 seeding loop of `distribute` (step 4 in the source): fill
each senior-only room in order with up to `ROOM_CAPACITY` seniors from the
remaining pool, stopping once the pool is empty.  Returns the updated
rooms and the remaining senior count. -/
def fillSeniorOnlyRooms : List RoomBox → Nat → List RoomBox × Nat
  | [], remainingSeniors => ([], remainingSeniors)
  | room :: rest, remainingSeniors =>
    if remainingSeniors ≤ 0 then (room :: rest, remainingSeniors)
    else
      let a := room.addSeniors (min ROOM_CAPACITY remainingSeniors)
      let t := fillSeniorOnlyRooms rest (remainingSeniors - a.2)
      (a.1 :: t.1, t.2)

/-- Phase-5 anchor loop of `distribute` (step 5 in the source): seed each
mixed room with one adult if any remain, else one senior; `none` models
the defensive `return []` taken when both pools are empty with rooms
still unseeded. -/
def anchorMixedRooms : List RoomBox → Nat → Nat → Option (List RoomBox × Nat × Nat)
  | [], remainingAdults, remainingSeniors => some ([], remainingAdults, remainingSeniors)
  | room :: rest, remainingAdults, remainingSeniors =>
    if 0 < remainingAdults then
      match anchorMixedRooms rest (remainingAdults - 1) remainingSeniors with
      | none => none
      | some t => some ((room.addAdults 1).1 :: t.1, t.2)
    else if 0 < remainingSeniors then
      match anchorMixedRooms rest remainingAdults (remainingSeniors - 1) with
      | none => none
      | some t => some ((room.addSeniors 1).1 :: t.1, t.2)
    else none

/-- One `for (const room of rooms)` pass of a placement sweep: into each
room satisfying `pred`, while people remain, put one person via `place`,
decrementing the remaining count and recording progress; once the count
reaches 0 the rest of the list is left untouched (the `break`). -/
def sweepOnce (pred : RoomBox → Bool) (place : RoomBox → RoomBox) :
    List RoomBox → Nat → Bool → List RoomBox × Nat × Bool
  | [], remaining, placedSomething => ([], remaining, placedSomething)
  | room :: rest, remaining, placedSomething =>
    if remaining ≤ 0 then (room :: rest, remaining, placedSomething)
    else if pred room then
      let t := sweepOnce pred place rest (remaining - 1) true
      (place room :: t.1, t.2)
    else
      let t := sweepOnce pred place rest remaining placedSomething
      (room :: t.1, t.2)

/-- One iteration of a `while (remaining > 0)` sweep body: a pass over
`l1`, then over `l2`, starting with `placedSomething = false`. -/
def sweepPass (pred : RoomBox → Bool) (place : RoomBox → RoomBox)
    (l1 l2 : List RoomBox) (remaining : Nat) :
    List RoomBox × List RoomBox × Nat × Bool :=
  let s1 := sweepOnce pred place l1 remaining false
  let s2 := sweepOnce pred place l2 s1.2.1 s1.2.2
  (s1.1, s2.1, s2.2)

/-- The sweep loop on fuel: stop when the fuel is out, the remaining count
is 0, or a pass places nobody.  Each continuing pass strictly decreases
the remaining count (`sweepPass_progress`), so fuel `remaining` suffices
and `sweepLoop` below satisfies the loop's defining equation
(`sweepLoop_eq`). -/
def sweepLoopAux (pred : RoomBox → Bool) (place : RoomBox → RoomBox) :
    Nat → List RoomBox → List RoomBox → Nat → List RoomBox × List RoomBox × Nat
  | 0, l1, l2, remaining => (l1, l2, remaining)
  | fuel + 1, l1, l2, remaining =>
    if remaining ≤ 0 then (l1, l2, remaining)
    else
      let s := sweepPass pred place l1 l2 remaining
      if s.2.2.2 then sweepLoopAux pred place fuel s.1 s.2.1 s.2.2.1
      else (s.1, s.2.1, s.2.2.1)

/-- A `while (remaining > 0) { pass; if (!placedSomething) break }` sweep
loop over two room lists; returns the updated lists and the count left. -/
def sweepLoop (pred : RoomBox → Bool) (place : RoomBox → RoomBox)
    (l1 l2 : List RoomBox) (remaining : Nat) : List RoomBox × List RoomBox × Nat :=
  sweepLoopAux pred place remaining l1 l2 remaining

/-- `placeSeniorsIntoRoomsThatAlreadyHaveSeniors(count, seniorOnlyRooms,
mixedRooms)`: repeated sweeps placing seniors into rooms that already hold
a senior and have spare capacity, senior-only rooms first. -/
def placeSeniorsIntoRoomsThatAlreadyHaveSeniors (count : Nat)
    (seniorOnlyRooms mixedRooms : List RoomBox) : List RoomBox × List RoomBox × Nat :=
  sweepLoop (fun r => decide (0 < r.seniors) && decide (0 < r.remainingCapacity))
    (fun r => (r.addSeniors 1).1) seniorOnlyRooms mixedRooms count

/-- `placeSeniorsAnywhere(count, seniorOnlyRooms, mixedRooms)`: fallback
sweeps placing seniors into any room with spare capacity, senior-only
rooms first. -/
def placeSeniorsAnywhere (count : Nat)
    (seniorOnlyRooms mixedRooms : List RoomBox) : List RoomBox × List RoomBox × Nat :=
  sweepLoop (fun r => decide (0 < r.remainingCapacity))
    (fun r => (r.addSeniors 1).1) seniorOnlyRooms mixedRooms count

/-- `placeAdultsPreferMixedRooms(count, mixedRooms, seniorOnlyRooms)`: a
sweep loop over the mixed rooms alone, then a second sweep loop over the
senior-only rooms alone (each a single-list loop, embedded as a two-list
loop whose second list is empty).  Returns (mixed, senior-only, left). -/
def placeAdultsPreferMixedRooms (count : Nat)
    (mixedRooms seniorOnlyRooms : List RoomBox) : List RoomBox × List RoomBox × Nat :=
  let m := sweepLoop (fun r => decide (0 < r.remainingCapacity))
    (fun r => (r.addAdults 1).1) mixedRooms [] count
  let s := sweepLoop (fun r => decide (0 < r.remainingCapacity))
    (fun r => (r.addAdults 1).1) seniorOnlyRooms [] m.2.2
  (m.1, s.1, s.2.2)

/-- `placeChildrenIntoRoomsWithAdults(count, mixedRooms,
seniorOnlyRooms)`: repeated sweeps placing children into rooms holding an
adult with spare capacity, mixed rooms first.  Returns (mixed,
senior-only, left). -/
def placeChildrenIntoRoomsWithAdults (count : Nat)
    (mixedRooms seniorOnlyRooms : List RoomBox) : List RoomBox × List RoomBox × Nat :=
  sweepLoop (fun r => decide (0 < r.adults) && decide (0 < r.remainingCapacity))
    (fun r => (r.addChildren 1).1) mixedRooms seniorOnlyRooms count

/-- `placeChildrenIntoRoomsWithSeniors(count, mixedRooms,
seniorOnlyRooms)`: repeated sweeps placing children into rooms holding a
senior with spare capacity, senior-only rooms first.  Returns (mixed,
senior-only, left). -/
def placeChildrenIntoRoomsWithSeniors (count : Nat)
    (mixedRooms seniorOnlyRooms : List RoomBox) : List RoomBox × List RoomBox × Nat :=
  let s := sweepLoop (fun r => decide (0 < r.seniors) && decide (0 < r.remainingCapacity))
    (fun r => (r.addChildren 1).1) seniorOnlyRooms mixedRooms count
  (s.2.1, s.1, s.2.2)

/-- The Phase-10 comparator `(a, b) => b.adults - a.adults || b.seniors -
a.seniors || b.children - a.children` as an order: `roomLE a b` holds when
the comparator allows `a` to precede `b`, i.e. `a` is lexicographically
greater than or equal to `b` on (adults, seniors, children). -/
def roomLE (a b : Room) : Prop :=
  b.adults < a.adults ∨
    (b.adults = a.adults ∧
      (b.seniors < a.seniors ∨ (b.seniors = a.seniors ∧ b.children ≤ a.children)))

instance : DecidableRel roomLE := fun a b => by unfold roomLE; infer_instance

instance : IsTotal Room roomLE :=
  ⟨fun a b => by unfold roomLE; omega⟩

instance : IsTrans Room roomLE :=
  ⟨fun a b c hab hbc => by unfold roomLE at *; omega⟩

/-- The Phase-2–5 portion of `distribute`: build the quota of senior-only
rooms and the mixed rooms, seed the senior-only rooms with seniors, then
anchor each mixed room; `none` is the defensive anchor dead-end.  On
success returns (senior-only rooms, (mixed rooms, adults left, seniors
left)). -/
def setupRooms (roomCount totalAdults totalSeniors totalChildren : Nat) :
    Option (List RoomBox × List RoomBox × Nat × Nat) :=
  let seniorOnlyCount :=
    pickSeniorOnlyRoomCount roomCount totalAdults totalSeniors totalChildren
  let fill := fillSeniorOnlyRooms (List.replicate seniorOnlyCount RoomBox.init) totalSeniors
  match anchorMixedRooms (List.replicate (roomCount - seniorOnlyCount) RoomBox.init)
      totalAdults fill.2 with
  | none => none
  | some anchored => some (fill.1, anchored)

/-- `RoomAllocator.distribute`: the single public operation.  JS
`Array.prototype.sort` is a stable sort, and under this comparator two
rooms compare as ties exactly when they are equal records, so every
correct stable sort returns the same list; we use insertion sort, which
the kernel can evaluate. -/
def distribute (roomCount totalAdults totalSeniors totalChildren : Nat) : List Room :=
  if ¬ isFeasible roomCount totalAdults totalSeniors totalChildren then []
  else
    match setupRooms roomCount totalAdults totalSeniors totalChildren with
    | none => []
    | some st =>
      let seniorOnly0 := st.1
      let mixed0 := st.2.1
      let s1 := placeSeniorsIntoRoomsThatAlreadyHaveSeniors st.2.2.2 seniorOnly0 mixed0
      let s2 := placeSeniorsAnywhere s1.2.2 s1.1 s1.2.1
      let p := placeAdultsPreferMixedRooms st.2.2.1 s2.2.1 s2.1
      let c1 := placeChildrenIntoRoomsWithAdults totalChildren p.1 p.2.1
      let c2 := if 0 < c1.2.2 then placeChildrenIntoRoomsWithSeniors c1.2.2 c1.1 c1.2.1
        else c1
      if 0 < p.2.2 ∨ 0 < s2.2.2 ∨ 0 < c2.2.2 then []
      else
        let allRooms := c2.1 ++ c2.2.1
        if allRooms.any (fun r => decide (r.total ≤ 0)) then []
        else if allRooms.any
            (fun r => decide (0 < r.children) && decide (r.adults + r.seniors = 0)) then []
        else List.insertionSort roomLE (allRooms.map RoomBox.toRoom)

end RoomAllocator

namespace RoomAllocator

/-! ### Basic facts about sums over room lists -/

/-- Sum of one occupant field over a list of rooms. -/
def sumBy (f : RoomBox → Nat) (l : List RoomBox) : Nat := (l.map f).sum

lemma sumBy_nil (f : RoomBox → Nat) : sumBy f [] = 0 := rfl

lemma sumBy_cons (f : RoomBox → Nat) (r : RoomBox) (l : List RoomBox) :
    sumBy f (r :: l) = f r + sumBy f l := by
  simp [sumBy]

lemma sumBy_append (f : RoomBox → Nat) (l1 l2 : List RoomBox) :
    sumBy f (l1 ++ l2) = sumBy f l1 + sumBy f l2 := by
  simp [sumBy]

lemma sumBy_replicate_init (f : RoomBox → Nat) (h : f RoomBox.init = 0) (k : Nat) :
    sumBy f (List.replicate k RoomBox.init) = 0 := by
  induction k with
  | zero => rfl
  | succ k ih => simpa [List.replicate_succ, sumBy_cons, h] using ih

/-! ### Basic facts about `RoomBox` operations -/

lemma addAdults_fields (r : RoomBox) (n : Nat) :
    (r.addAdults n).1.adults = r.adults + min n r.remainingCapacity ∧
    (r.addAdults n).1.seniors = r.seniors ∧
    (r.addAdults n).1.children = r.children ∧
    (r.addAdults n).2 = min n r.remainingCapacity := by
  simp [RoomBox.addAdults]

lemma addSeniors_fields (r : RoomBox) (n : Nat) :
    (r.addSeniors n).1.adults = r.adults ∧
    (r.addSeniors n).1.seniors = r.seniors + min n r.remainingCapacity ∧
    (r.addSeniors n).1.children = r.children ∧
    (r.addSeniors n).2 = min n r.remainingCapacity := by
  simp [RoomBox.addSeniors]

lemma addChildren_fields (r : RoomBox) (n : Nat) :
    (r.addChildren n).1.adults = r.adults ∧
    (r.addChildren n).1.seniors = r.seniors ∧
    (r.addChildren n).1.children = r.children + min n r.remainingCapacity ∧
    (r.addChildren n).2 = min n r.remainingCapacity := by
  simp [RoomBox.addChildren]

lemma addAdults_total_le (r : RoomBox) (n : Nat) (h : r.total ≤ ROOM_CAPACITY) :
    (r.addAdults n).1.total ≤ ROOM_CAPACITY := by
  simp only [RoomBox.addAdults, RoomBox.total, RoomBox.remainingCapacity] at *
  omega

lemma addSeniors_total_le (r : RoomBox) (n : Nat) (h : r.total ≤ ROOM_CAPACITY) :
    (r.addSeniors n).1.total ≤ ROOM_CAPACITY := by
  simp only [RoomBox.addSeniors, RoomBox.total, RoomBox.remainingCapacity] at *
  omega

lemma addChildren_total_le (r : RoomBox) (n : Nat) (h : r.total ≤ ROOM_CAPACITY) :
    (r.addChildren n).1.total ≤ ROOM_CAPACITY := by
  simp only [RoomBox.addChildren, RoomBox.total, RoomBox.remainingCapacity] at *
  omega

/-! ### Properties of a single sweep pass (`sweepOnce`, `sweepPass`) -/

lemma sweepOnce_rem_le (pred : RoomBox → Bool) (place : RoomBox → RoomBox)
    (l : List RoomBox) (rem : Nat) (pl : Bool) :
    (sweepOnce pred place l rem pl).2.1 ≤ rem := by
  induction l generalizing rem pl with
  | nil => simp [sweepOnce]
  | cons room rest ih =>
    simp only [sweepOnce]
    split
    · simp
    · split
      · have := ih (rem - 1) true
        simp only at this ⊢
        omega
      · exact ih rem pl

lemma sweepOnce_placed_mono (pred : RoomBox → Bool) (place : RoomBox → RoomBox)
    (l : List RoomBox) (rem : Nat) :
    (sweepOnce pred place l rem true).2.2 = true := by
  induction l generalizing rem with
  | nil => simp [sweepOnce]
  | cons room rest ih =>
    simp only [sweepOnce]
    split
    · rfl
    · split
      · exact ih (rem - 1)
      · exact ih rem

lemma sweepOnce_not_placed (pred : RoomBox → Bool) (place : RoomBox → RoomBox)
    (l : List RoomBox) (rem : Nat) (pl : Bool)
    (h : (sweepOnce pred place l rem pl).2.2 = false) :
    (sweepOnce pred place l rem pl).2.1 = rem ∧ (sweepOnce pred place l rem pl).1 = l := by
  induction l generalizing rem pl with
  | nil => simp [sweepOnce]
  | cons room rest ih =>
    by_cases h0 : rem ≤ 0
    · simp [sweepOnce, h0]
    · by_cases hp : pred room
      · simp only [sweepOnce, if_neg h0, if_pos hp] at h
        rw [sweepOnce_placed_mono] at h
        exact absurd h (by simp)
      · simp only [sweepOnce, if_neg h0, if_neg hp] at h ⊢
        have := ih rem pl h
        exact ⟨this.1, by rw [this.2]⟩

lemma sweepOnce_progress (pred : RoomBox → Bool) (place : RoomBox → RoomBox)
    (l : List RoomBox) (rem : Nat)
    (h : (sweepOnce pred place l rem false).2.2 = true) :
    (sweepOnce pred place l rem false).2.1 < rem := by
  induction l generalizing rem with
  | nil => simp [sweepOnce] at h
  | cons room rest ih =>
    by_cases h0 : rem ≤ 0
    · simp only [sweepOnce, if_pos h0] at h
      exact Bool.noConfusion h
    · by_cases hp : pred room
      · simp only [sweepOnce, if_neg h0, if_pos hp]
        have h1 := sweepOnce_rem_le pred place rest (rem - 1) true
        omega
      · simp only [sweepOnce, if_neg h0, if_neg hp] at h ⊢
        have := ih rem h
        omega

lemma sweepOnce_length (pred : RoomBox → Bool) (place : RoomBox → RoomBox)
    (l : List RoomBox) (rem : Nat) (pl : Bool) :
    (sweepOnce pred place l rem pl).1.length = l.length := by
  induction l generalizing rem pl with
  | nil => simp [sweepOnce]
  | cons room rest ih =>
    simp only [sweepOnce]
    split
    · rfl
    · split
      · simpa using ih (rem - 1) true
      · simpa using ih rem pl

lemma sweepOnce_sum_inc (pred : RoomBox → Bool) (place : RoomBox → RoomBox)
    (f : RoomBox → Nat) (hf : ∀ r, pred r = true → f (place r) = f r + 1)
    (l : List RoomBox) (rem : Nat) (pl : Bool) :
    sumBy f (sweepOnce pred place l rem pl).1 + (sweepOnce pred place l rem pl).2.1
      = sumBy f l + rem := by
  induction l generalizing rem pl with
  | nil => simp [sweepOnce]
  | cons room rest ih =>
    simp only [sweepOnce]
    split
    · rfl
    · rename_i hrem
      split
      · rename_i hpred
        have := ih (rem - 1) true
        simp only [sumBy_cons, hf room hpred] at this ⊢
        omega
      · have := ih rem pl
        simp only [sumBy_cons] at this ⊢
        omega

lemma sweepOnce_sum_preserved (pred : RoomBox → Bool) (place : RoomBox → RoomBox)
    (g : RoomBox → Nat) (hg : ∀ r, pred r = true → g (place r) = g r)
    (l : List RoomBox) (rem : Nat) (pl : Bool) :
    sumBy g (sweepOnce pred place l rem pl).1 = sumBy g l := by
  induction l generalizing rem pl with
  | nil => simp [sweepOnce]
  | cons room rest ih =>
    simp only [sweepOnce]
    split
    · rfl
    · split
      · rename_i hpred
        have := ih (rem - 1) true
        simp only [sumBy_cons, hg room hpred] at this ⊢
        omega
      · have := ih rem pl
        simp only [sumBy_cons] at this ⊢
        omega

lemma sweepOnce_invariant (pred : RoomBox → Bool) (place : RoomBox → RoomBox)
    (P : RoomBox → Prop) (hP : ∀ r, P r → pred r = true → P (place r))
    (l : List RoomBox) (rem : Nat) (pl : Bool) (hl : ∀ r ∈ l, P r) :
    ∀ r ∈ (sweepOnce pred place l rem pl).1, P r := by
  induction l generalizing rem pl with
  | nil => simp [sweepOnce]
  | cons room rest ih =>
    simp only [sweepOnce]
    split
    · exact hl
    · have hroom : P room := hl room (by simp)
      have hrest : ∀ r ∈ rest, P r := fun r hr => hl r (by simp [hr])
      split
      · rename_i hpred
        intro r hr
        rcases List.mem_cons.mp hr with h | h
        · exact h ▸ hP room hroom hpred
        · exact ih (rem - 1) true hrest r h
      · intro r hr
        rcases List.mem_cons.mp hr with h | h
        · exact h ▸ hroom
        · exact ih rem pl hrest r h

end RoomAllocator

namespace RoomAllocator

lemma sweepPass_rem_le (pred : RoomBox → Bool) (place : RoomBox → RoomBox)
    (l1 l2 : List RoomBox) (rem : Nat) :
    (sweepPass pred place l1 l2 rem).2.2.1 ≤ rem := by
  have h1 := sweepOnce_rem_le pred place l1 rem false
  have h2 := sweepOnce_rem_le pred place l2 (sweepOnce pred place l1 rem false).2.1
    (sweepOnce pred place l1 rem false).2.2
  simp only [sweepPass]
  omega

lemma sweepPass_progress (pred : RoomBox → Bool) (place : RoomBox → RoomBox)
    (l1 l2 : List RoomBox) (rem : Nat)
    (h : (sweepPass pred place l1 l2 rem).2.2.2 = true) :
    (sweepPass pred place l1 l2 rem).2.2.1 < rem := by
  simp only [sweepPass] at h ⊢
  have h2le := sweepOnce_rem_le pred place l2 (sweepOnce pred place l1 rem false).2.1
    (sweepOnce pred place l1 rem false).2.2
  rcases hb : (sweepOnce pred place l1 rem false).2.2 with _ | _
  · rw [hb] at h
    have h2 := sweepOnce_progress pred place l2 (sweepOnce pred place l1 rem false).2.1 h
    have h1 := (sweepOnce_not_placed pred place l1 rem false hb).1
    omega
  · rw [hb] at h2le
    have h1 := sweepOnce_progress pred place l1 rem hb
    omega

lemma sweepPass_not_placed (pred : RoomBox → Bool) (place : RoomBox → RoomBox)
    (l1 l2 : List RoomBox) (rem : Nat)
    (h : (sweepPass pred place l1 l2 rem).2.2.2 = false) :
    (sweepPass pred place l1 l2 rem).2.2.1 = rem := by
  simp only [sweepPass] at h ⊢
  rcases hb : (sweepOnce pred place l1 rem false).2.2 with _ | _
  · rw [hb] at h
    have h2 := (sweepOnce_not_placed pred place l2
      (sweepOnce pred place l1 rem false).2.1 false h).1
    have h1 := (sweepOnce_not_placed pred place l1 rem false hb).1
    omega
  · rw [hb] at h
    rw [sweepOnce_placed_mono] at h
    exact Bool.noConfusion h

lemma sweepPass_length (pred : RoomBox → Bool) (place : RoomBox → RoomBox)
    (l1 l2 : List RoomBox) (rem : Nat) :
    (sweepPass pred place l1 l2 rem).1.length = l1.length ∧
    (sweepPass pred place l1 l2 rem).2.1.length = l2.length := by
  simp only [sweepPass]
  exact ⟨sweepOnce_length pred place l1 rem false, sweepOnce_length pred place l2 _ _⟩

lemma sweepPass_sum_inc (pred : RoomBox → Bool) (place : RoomBox → RoomBox)
    (f : RoomBox → Nat) (hf : ∀ r, pred r = true → f (place r) = f r + 1)
    (l1 l2 : List RoomBox) (rem : Nat) :
    sumBy f (sweepPass pred place l1 l2 rem).1 + sumBy f (sweepPass pred place l1 l2 rem).2.1
      + (sweepPass pred place l1 l2 rem).2.2.1 = sumBy f l1 + sumBy f l2 + rem := by
  have h1 := sweepOnce_sum_inc pred place f hf l1 rem false
  have h2 := sweepOnce_sum_inc pred place f hf l2 (sweepOnce pred place l1 rem false).2.1
    (sweepOnce pred place l1 rem false).2.2
  simp only [sweepPass]
  omega

lemma sweepPass_sum_preserved (pred : RoomBox → Bool) (place : RoomBox → RoomBox)
    (g : RoomBox → Nat) (hg : ∀ r, pred r = true → g (place r) = g r)
    (l1 l2 : List RoomBox) (rem : Nat) :
    sumBy g (sweepPass pred place l1 l2 rem).1 = sumBy g l1 ∧
    sumBy g (sweepPass pred place l1 l2 rem).2.1 = sumBy g l2 := by
  simp only [sweepPass]
  exact ⟨sweepOnce_sum_preserved pred place g hg l1 rem false,
    sweepOnce_sum_preserved pred place g hg l2 _ _⟩

lemma sweepPass_invariant (pred : RoomBox → Bool) (place : RoomBox → RoomBox)
    (P : RoomBox → Prop) (hP : ∀ r, P r → pred r = true → P (place r))
    (l1 l2 : List RoomBox) (rem : Nat)
    (h1 : ∀ r ∈ l1, P r) (h2 : ∀ r ∈ l2, P r) :
    (∀ r ∈ (sweepPass pred place l1 l2 rem).1, P r) ∧
    (∀ r ∈ (sweepPass pred place l1 l2 rem).2.1, P r) := by
  simp only [sweepPass]
  exact ⟨sweepOnce_invariant pred place P hP l1 rem false h1,
    sweepOnce_invariant pred place P hP l2 _ _ h2⟩

/-! ### Properties of the repeated-sweep loop (`sweepLoopAux`, `sweepLoop`) -/

lemma sweepLoopAux_length (pred : RoomBox → Bool) (place : RoomBox → RoomBox)
    (fuel : Nat) (l1 l2 : List RoomBox) (rem : Nat) :
    (sweepLoopAux pred place fuel l1 l2 rem).1.length = l1.length ∧
    (sweepLoopAux pred place fuel l1 l2 rem).2.1.length = l2.length := by
  induction fuel generalizing l1 l2 rem with
  | zero => simp [sweepLoopAux]
  | succ fuel ih =>
    by_cases h0 : rem ≤ 0
    · simp [sweepLoopAux, h0]
    · simp only [sweepLoopAux, if_neg h0]
      have hp := sweepPass_length pred place l1 l2 rem
      by_cases hpl : (sweepPass pred place l1 l2 rem).2.2.2 = true
      · simp only [hpl, if_true]
        have := ih (sweepPass pred place l1 l2 rem).1 (sweepPass pred place l1 l2 rem).2.1
          (sweepPass pred place l1 l2 rem).2.2.1
        omega
      · simp only [Bool.not_eq_true] at hpl
        simp only [hpl, Bool.false_eq_true, if_false]
        omega

lemma sweepLoopAux_sum_inc (pred : RoomBox → Bool) (place : RoomBox → RoomBox)
    (f : RoomBox → Nat) (hf : ∀ r, pred r = true → f (place r) = f r + 1)
    (fuel : Nat) (l1 l2 : List RoomBox) (rem : Nat) :
    sumBy f (sweepLoopAux pred place fuel l1 l2 rem).1
      + sumBy f (sweepLoopAux pred place fuel l1 l2 rem).2.1
      + (sweepLoopAux pred place fuel l1 l2 rem).2.2
      = sumBy f l1 + sumBy f l2 + rem := by
  induction fuel generalizing l1 l2 rem with
  | zero => simp [sweepLoopAux]
  | succ fuel ih =>
    by_cases h0 : rem ≤ 0
    · simp [sweepLoopAux, h0]
    · simp only [sweepLoopAux, if_neg h0]
      have hp := sweepPass_sum_inc pred place f hf l1 l2 rem
      by_cases hpl : (sweepPass pred place l1 l2 rem).2.2.2 = true
      · simp only [hpl, if_true]
        have := ih (sweepPass pred place l1 l2 rem).1 (sweepPass pred place l1 l2 rem).2.1
          (sweepPass pred place l1 l2 rem).2.2.1
        omega
      · simp only [Bool.not_eq_true] at hpl
        simp only [hpl, Bool.false_eq_true, if_false]
        omega

lemma sweepLoopAux_sum_preserved (pred : RoomBox → Bool) (place : RoomBox → RoomBox)
    (g : RoomBox → Nat) (hg : ∀ r, pred r = true → g (place r) = g r)
    (fuel : Nat) (l1 l2 : List RoomBox) (rem : Nat) :
    sumBy g (sweepLoopAux pred place fuel l1 l2 rem).1 = sumBy g l1 ∧
    sumBy g (sweepLoopAux pred place fuel l1 l2 rem).2.1 = sumBy g l2 := by
  induction fuel generalizing l1 l2 rem with
  | zero => simp [sweepLoopAux]
  | succ fuel ih =>
    by_cases h0 : rem ≤ 0
    · simp [sweepLoopAux, h0]
    · simp only [sweepLoopAux, if_neg h0]
      have hp := sweepPass_sum_preserved pred place g hg l1 l2 rem
      by_cases hpl : (sweepPass pred place l1 l2 rem).2.2.2 = true
      · simp only [hpl, if_true]
        have := ih (sweepPass pred place l1 l2 rem).1 (sweepPass pred place l1 l2 rem).2.1
          (sweepPass pred place l1 l2 rem).2.2.1
        omega
      · simp only [Bool.not_eq_true] at hpl
        simp only [hpl, Bool.false_eq_true, if_false]
        omega

lemma sweepLoopAux_invariant (pred : RoomBox → Bool) (place : RoomBox → RoomBox)
    (P : RoomBox → Prop) (hP : ∀ r, P r → pred r = true → P (place r))
    (fuel : Nat) (l1 l2 : List RoomBox) (rem : Nat)
    (h1 : ∀ r ∈ l1, P r) (h2 : ∀ r ∈ l2, P r) :
    (∀ r ∈ (sweepLoopAux pred place fuel l1 l2 rem).1, P r) ∧
    (∀ r ∈ (sweepLoopAux pred place fuel l1 l2 rem).2.1, P r) := by
  induction fuel generalizing l1 l2 rem with
  | zero => simp only [sweepLoopAux]; exact ⟨h1, h2⟩
  | succ fuel ih =>
    by_cases h0 : rem ≤ 0
    · simp only [sweepLoopAux, if_pos h0]
      exact ⟨h1, h2⟩
    · simp only [sweepLoopAux, if_neg h0]
      have hp := sweepPass_invariant pred place P hP l1 l2 rem h1 h2
      by_cases hpl : (sweepPass pred place l1 l2 rem).2.2.2 = true
      · simp only [hpl, if_true]
        exact ih (sweepPass pred place l1 l2 rem).1 (sweepPass pred place l1 l2 rem).2.1
          (sweepPass pred place l1 l2 rem).2.2.1 hp.1 hp.2
      · simp only [Bool.not_eq_true] at hpl
        simp only [hpl, Bool.false_eq_true, if_false]
        exact hp

lemma sweepLoopAux_succ_eq (pred : RoomBox → Bool) (place : RoomBox → RoomBox)
    (fuel : Nat) (l1 l2 : List RoomBox) (rem : Nat) (h : rem ≤ fuel) :
    sweepLoopAux pred place (fuel + 1) l1 l2 rem = sweepLoopAux pred place fuel l1 l2 rem := by
  induction fuel generalizing l1 l2 rem with
  | zero =>
    have : rem = 0 := by omega
    subst this
    simp [sweepLoopAux]
  | succ fuel ih =>
    by_cases h0 : rem ≤ 0
    · simp [sweepLoopAux, h0]
    · conv_lhs => rw [sweepLoopAux]
      conv_rhs => rw [sweepLoopAux]
      simp only [if_neg h0]
      by_cases hpl : (sweepPass pred place l1 l2 rem).2.2.2 = true
      · simp only [hpl, if_true]
        have hlt := sweepPass_progress pred place l1 l2 rem hpl
        exact ih (sweepPass pred place l1 l2 rem).1 (sweepPass pred place l1 l2 rem).2.1
          (sweepPass pred place l1 l2 rem).2.2.1 (by omega)
      · simp only [Bool.not_eq_true] at hpl
        simp only [hpl, Bool.false_eq_true, if_false]

lemma sweepLoopAux_fuel_ge (pred : RoomBox → Bool) (place : RoomBox → RoomBox)
    (fuel : Nat) (l1 l2 : List RoomBox) (rem : Nat) (h : rem ≤ fuel) :
    sweepLoopAux pred place fuel l1 l2 rem = sweepLoopAux pred place rem l1 l2 rem := by
  induction fuel with
  | zero =>
    have : rem = 0 := by omega
    subst this
    rfl
  | succ fuel ih =>
    by_cases he : rem = fuel + 1
    · subst he
      rfl
    · have hle : rem ≤ fuel := by omega
      rw [sweepLoopAux_succ_eq pred place fuel l1 l2 rem hle]
      exact ih hle

/-- The `while (remaining > 0) {...}` loop equation: `sweepLoop` stops when
no people remain, runs one `sweepPass`, recurses while the pass placed
someone, and exits as soon as a pass places nobody.  Together with
`sweepPass_progress` this is the termination argument for the source's
sweep loops. -/
lemma sweepLoop_eq (pred : RoomBox → Bool) (place : RoomBox → RoomBox)
    (l1 l2 : List RoomBox) (rem : Nat) :
    sweepLoop pred place l1 l2 rem =
      if rem ≤ 0 then (l1, l2, rem)
      else
        if (sweepPass pred place l1 l2 rem).2.2.2 then
          sweepLoop pred place (sweepPass pred place l1 l2 rem).1
            (sweepPass pred place l1 l2 rem).2.1 (sweepPass pred place l1 l2 rem).2.2.1
        else ((sweepPass pred place l1 l2 rem).1, (sweepPass pred place l1 l2 rem).2.1,
          (sweepPass pred place l1 l2 rem).2.2.1) := by
  unfold sweepLoop
  rcases rem with _ | n
  · rfl
  · conv_lhs => rw [sweepLoopAux]
    simp only [Nat.succ_ne_zero, Nat.le_zero, if_false]
    by_cases hpl : (sweepPass pred place l1 l2 (n + 1)).2.2.2 = true
    · simp only [hpl, if_true]
      have hlt := sweepPass_progress pred place l1 l2 (n + 1) hpl
      exact sweepLoopAux_fuel_ge pred place n _ _ _ (by omega)
    · simp only [Bool.not_eq_true] at hpl
      simp only [hpl, Bool.false_eq_true, if_false]

end RoomAllocator

namespace RoomAllocator

/-! ### Properties of the senior-only seeding phase (`fillSeniorOnlyRooms`) -/

lemma fillSeniorOnlyRooms_length (l : List RoomBox) (s : Nat) :
    (fillSeniorOnlyRooms l s).1.length = l.length := by
  induction l generalizing s with
  | nil => simp [fillSeniorOnlyRooms]
  | cons room rest ih =>
    by_cases h0 : s ≤ 0
    · simp [fillSeniorOnlyRooms, h0]
    · simp only [fillSeniorOnlyRooms, if_neg h0, List.length_cons]
      rw [ih]

lemma fillSeniorOnlyRooms_sum_seniors (l : List RoomBox) (s : Nat) :
    sumBy RoomBox.seniors (fillSeniorOnlyRooms l s).1 + (fillSeniorOnlyRooms l s).2
      = sumBy RoomBox.seniors l + s := by
  induction l generalizing s with
  | nil => simp [fillSeniorOnlyRooms]
  | cons room rest ih =>
    by_cases h0 : s ≤ 0
    · simp [fillSeniorOnlyRooms, h0]
    · simp only [fillSeniorOnlyRooms, if_neg h0, sumBy_cons]
      have hf := addSeniors_fields room (min ROOM_CAPACITY s)
      have hle : (room.addSeniors (min ROOM_CAPACITY s)).2 ≤ s := by
        rw [hf.2.2.2]; omega
      have := ih (s - (room.addSeniors (min ROOM_CAPACITY s)).2)
      omega

lemma fillSeniorOnlyRooms_sum_adults (l : List RoomBox) (s : Nat) :
    sumBy RoomBox.adults (fillSeniorOnlyRooms l s).1 = sumBy RoomBox.adults l := by
  induction l generalizing s with
  | nil => simp [fillSeniorOnlyRooms]
  | cons room rest ih =>
    by_cases h0 : s ≤ 0
    · simp [fillSeniorOnlyRooms, h0]
    · simp only [fillSeniorOnlyRooms, if_neg h0, sumBy_cons]
      have hf := addSeniors_fields room (min ROOM_CAPACITY s)
      rw [hf.1, ih]

lemma fillSeniorOnlyRooms_sum_children (l : List RoomBox) (s : Nat) :
    sumBy RoomBox.children (fillSeniorOnlyRooms l s).1 = sumBy RoomBox.children l := by
  induction l generalizing s with
  | nil => simp [fillSeniorOnlyRooms]
  | cons room rest ih =>
    by_cases h0 : s ≤ 0
    · simp [fillSeniorOnlyRooms, h0]
    · simp only [fillSeniorOnlyRooms, if_neg h0, sumBy_cons]
      have hf := addSeniors_fields room (min ROOM_CAPACITY s)
      rw [hf.2.2.1, ih]

lemma fillSeniorOnlyRooms_invariant (l : List RoomBox) (s : Nat)
    (hl : ∀ r ∈ l, r.total ≤ ROOM_CAPACITY) :
    ∀ r ∈ (fillSeniorOnlyRooms l s).1, r.total ≤ ROOM_CAPACITY := by
  induction l generalizing s with
  | nil => simp [fillSeniorOnlyRooms]
  | cons room rest ih =>
    by_cases h0 : s ≤ 0
    · simpa [fillSeniorOnlyRooms, h0] using hl
    · simp only [fillSeniorOnlyRooms, if_neg h0]
      intro r hr
      rcases List.mem_cons.mp hr with h | h
      · exact h ▸ addSeniors_total_le room (min ROOM_CAPACITY s) (hl room (by simp))
      · exact ih (s - (room.addSeniors (min ROOM_CAPACITY s)).2)
          (fun r hr => hl r (by simp [hr])) r h

lemma fillSeniorOnlyRooms_rem_replicate (k s : Nat) :
    (fillSeniorOnlyRooms (List.replicate k RoomBox.init) s).2
      = s - min s (k * ROOM_CAPACITY) := by
  induction k generalizing s with
  | zero => simp [fillSeniorOnlyRooms]
  | succ k ih =>
    rw [List.replicate_succ]
    by_cases h0 : s ≤ 0
    · simp only [fillSeniorOnlyRooms, if_pos h0]
      omega
    · simp only [fillSeniorOnlyRooms, if_neg h0]
      have hcap : RoomBox.init.remainingCapacity = ROOM_CAPACITY := rfl
      have hf := addSeniors_fields RoomBox.init (min ROOM_CAPACITY s)
      have h2 : (RoomBox.init.addSeniors (min ROOM_CAPACITY s)).2 = min ROOM_CAPACITY s := by
        rw [hf.2.2.2, hcap]; omega
      rw [ih (s - (RoomBox.init.addSeniors (min ROOM_CAPACITY s)).2), h2]
      have hmul : (k + 1) * ROOM_CAPACITY = k * ROOM_CAPACITY + ROOM_CAPACITY := by ring
      omega

/-! ### Properties of the anchoring phase (`anchorMixedRooms`) -/

lemma anchorMixedRooms_none_iff (l : List RoomBox) (a s : Nat) :
    anchorMixedRooms l a s = none ↔ a + s < l.length := by
  induction l generalizing a s with
  | nil => simp [anchorMixedRooms]
  | cons room rest ih =>
    by_cases ha : 0 < a
    · simp only [anchorMixedRooms, if_pos ha]
      rcases hrec : anchorMixedRooms rest (a - 1) s with _ | t
      · have := (ih (a - 1) s).mp hrec
        simp only [List.length_cons]
        exact ⟨fun _ => by omega, fun _ => by trivial⟩
      · have : ¬ (a - 1 + s < rest.length) := fun hc => by
          rw [(ih (a - 1) s).mpr hc] at hrec
          exact Option.noConfusion hrec
        simp only [List.length_cons]
        constructor
        · intro hc
          exact Option.noConfusion hc
        · intro hc
          omega
    · by_cases hs : 0 < s
      · simp only [anchorMixedRooms, if_neg ha, if_pos hs]
        rcases hrec : anchorMixedRooms rest a (s - 1) with _ | t
        · have := (ih a (s - 1)).mp hrec
          simp only [List.length_cons]
          exact ⟨fun _ => by omega, fun _ => by trivial⟩
        · have : ¬ (a + (s - 1) < rest.length) := fun hc => by
            rw [(ih a (s - 1)).mpr hc] at hrec
            exact Option.noConfusion hrec
          simp only [List.length_cons]
          constructor
          · intro hc
            exact Option.noConfusion hc
          · intro hc
            omega
      · simp only [anchorMixedRooms, if_neg ha, if_neg hs, List.length_cons]
        exact ⟨fun _ => by omega, fun _ => by trivial⟩

lemma anchorMixedRooms_some (l : List RoomBox) (a s : Nat)
    (t : List RoomBox × Nat × Nat)
    (hcap : ∀ r ∈ l, 0 < r.remainingCapacity)
    (h : anchorMixedRooms l a s = some t) :
    t.1.length = l.length ∧
    sumBy RoomBox.adults t.1 + t.2.1 = sumBy RoomBox.adults l + a ∧
    sumBy RoomBox.seniors t.1 + t.2.2 = sumBy RoomBox.seniors l + s ∧
    sumBy RoomBox.children t.1 = sumBy RoomBox.children l := by
  induction l generalizing a s t with
  | nil =>
    simp only [anchorMixedRooms, Option.some.injEq] at h
    subst h
    simp [sumBy_nil]
  | cons room rest ih =>
    have hroom : 0 < room.remainingCapacity := hcap room (by simp)
    have hrest : ∀ r ∈ rest, 0 < r.remainingCapacity := fun r hr => hcap r (by simp [hr])
    by_cases ha : 0 < a
    · simp only [anchorMixedRooms, if_pos ha] at h
      rcases hrec : anchorMixedRooms rest (a - 1) s with _ | t2
      · rw [hrec] at h
        exact Option.noConfusion h
      · rw [hrec] at h
        simp only [Option.some.injEq] at h
        subst h
        have hi := ih (a - 1) s t2 hrest hrec
        have hf := addAdults_fields room 1
        simp only [List.length_cons, sumBy_cons]
        have hone : min 1 room.remainingCapacity = 1 := by omega
        rw [hf.1, hf.2.1, hf.2.2.1, hone] at *
        refine ⟨by omega, by omega, by omega, by omega⟩
    · by_cases hs : 0 < s
      · simp only [anchorMixedRooms, if_neg ha, if_pos hs] at h
        rcases hrec : anchorMixedRooms rest a (s - 1) with _ | t2
        · rw [hrec] at h
          exact Option.noConfusion h
        · rw [hrec] at h
          simp only [Option.some.injEq] at h
          subst h
          have hi := ih a (s - 1) t2 hrest hrec
          have hf := addSeniors_fields room 1
          simp only [List.length_cons, sumBy_cons]
          have hone : min 1 room.remainingCapacity = 1 := by omega
          rw [hf.1, hf.2.1, hf.2.2.1, hone] at *
          refine ⟨by omega, by omega, by omega, by omega⟩
      · simp only [anchorMixedRooms, if_neg ha, if_neg hs] at h
        exact Option.noConfusion h

lemma anchorMixedRooms_invariant (l : List RoomBox) (a s : Nat)
    (t : List RoomBox × Nat × Nat)
    (hl : ∀ r ∈ l, r.total ≤ ROOM_CAPACITY)
    (h : anchorMixedRooms l a s = some t) :
    ∀ r ∈ t.1, r.total ≤ ROOM_CAPACITY := by
  induction l generalizing a s t with
  | nil =>
    simp only [anchorMixedRooms, Option.some.injEq] at h
    subst h
    simp
  | cons room rest ih =>
    have hroom := hl room (by simp)
    have hrest : ∀ r ∈ rest, r.total ≤ ROOM_CAPACITY := fun r hr => hl r (by simp [hr])
    by_cases ha : 0 < a
    · simp only [anchorMixedRooms, if_pos ha] at h
      rcases hrec : anchorMixedRooms rest (a - 1) s with _ | t2
      · rw [hrec] at h
        exact Option.noConfusion h
      · rw [hrec] at h
        simp only [Option.some.injEq] at h
        subst h
        intro r hr
        rcases List.mem_cons.mp hr with hm | hm
        · exact hm ▸ addAdults_total_le room 1 hroom
        · exact ih (a - 1) s t2 hrest hrec r hm
    · by_cases hs : 0 < s
      · simp only [anchorMixedRooms, if_neg ha, if_pos hs] at h
        rcases hrec : anchorMixedRooms rest a (s - 1) with _ | t2
        · rw [hrec] at h
          exact Option.noConfusion h
        · rw [hrec] at h
          simp only [Option.some.injEq] at h
          subst h
          intro r hr
          rcases List.mem_cons.mp hr with hm | hm
          · exact hm ▸ addSeniors_total_le room 1 hroom
          · exact ih a (s - 1) t2 hrest hrec r hm
      · simp only [anchorMixedRooms, if_neg ha, if_neg hs] at h
        exact Option.noConfusion h

end RoomAllocator

namespace RoomAllocator

/-! ### Properties of the senior-only quota (`shrinkQuota`, `pickSeniorOnlyRoomCount`) -/

lemma shrinkQuota_le (roomCount numAdults numSeniors q : Nat) :
    shrinkQuota roomCount numAdults numSeniors q ≤ q := by
  induction q with
  | zero => simp [shrinkQuota]
  | succ q ih =>
    simp only [shrinkQuota]
    split
    · exact Nat.le_refl _
    · omega

lemma pickSeniorOnlyRoomCount_le (roomCount numAdults numSeniors numChildren : Nat) :
    pickSeniorOnlyRoomCount roomCount numAdults numSeniors numChildren ≤ roomCount := by
  have h := shrinkQuota_le roomCount numAdults numSeniors
    (min (roomCount - ceilDiv (numAdults + numChildren) ROOM_CAPACITY)
      (ceilDiv numSeniors ROOM_CAPACITY))
  simp only [pickSeniorOnlyRoomCount]
  omega

/-- When the shrink loop stops at a positive quota, the break condition
holds there: the adults plus leftover seniors can anchor every remaining
room. -/
lemma shrinkQuota_pos_anchor (roomCount numAdults numSeniors q : Nat)
    (h : 0 < shrinkQuota roomCount numAdults numSeniors q) :
    roomCount - shrinkQuota roomCount numAdults numSeniors q ≤
      numAdults + (numSeniors -
        min numSeniors (shrinkQuota roomCount numAdults numSeniors q * ROOM_CAPACITY)) := by
  induction q with
  | zero => simp [shrinkQuota] at h
  | succ q ih =>
    by_cases hb : roomCount - (q + 1) ≤
        numAdults + (numSeniors - min numSeniors ((q + 1) * ROOM_CAPACITY))
    · simp only [shrinkQuota, ge_iff_le, if_pos hb]
      exact hb
    · simp only [shrinkQuota, ge_iff_le, if_neg hb] at h ⊢
      exact ih h

/-! ### The spec's description of the quota procedure (claim C7) -/

/-- Modelled from the spec: the quota shrink loop as the spec words it —
"while `adults + (seniors − min(seniors, quota×CAPACITY)) <
(roomCount − quota)`, decrement quota". -/
def shrinkQuotaSpec (roomCount numAdults numSeniors : Nat) : Nat → Nat
  | 0 => 0
  | q + 1 =>
    if numAdults + (numSeniors - min numSeniors ((q + 1) * ROOM_CAPACITY))
        < roomCount - (q + 1) then
      shrinkQuotaSpec roomCount numAdults numSeniors q
    else q + 1

/-- Modelled from the spec: Phase 1's quota as described — start from
`min (max 0 (roomCount − ceil((adults+children)/CAPACITY)))
(ceil(seniors/CAPACITY))` (the `max 0` is `Nat` truncated subtraction
here) and run the shrink loop. -/
def pickSeniorOnlyRoomCountSpec (roomCount numAdults numSeniors numChildren : Nat) : Nat :=
  shrinkQuotaSpec roomCount numAdults numSeniors
    (min (roomCount - ceilDiv (numAdults + numChildren) ROOM_CAPACITY)
      (ceilDiv numSeniors ROOM_CAPACITY))

lemma shrinkQuota_eq_spec (roomCount numAdults numSeniors q : Nat) :
    shrinkQuota roomCount numAdults numSeniors q
      = shrinkQuotaSpec roomCount numAdults numSeniors q := by
  induction q with
  | zero => rfl
  | succ q ih =>
    simp only [shrinkQuota, shrinkQuotaSpec, ge_iff_le]
    by_cases hb : roomCount - (q + 1) ≤
        numAdults + (numSeniors - min numSeniors ((q + 1) * ROOM_CAPACITY))
    · rw [if_pos hb, if_neg (by omega)]
    · rw [if_neg hb, if_pos (by omega)]
      exact ih

/-! ### Properties of the construction-and-seeding stage (`setupRooms`) -/

lemma replicate_init_total (k : Nat) :
    ∀ r ∈ List.replicate k RoomBox.init, r.total ≤ ROOM_CAPACITY := by
  intro r hr
  rw [List.eq_of_mem_replicate hr]
  simp [RoomBox.total, RoomBox.init, ROOM_CAPACITY]

lemma replicate_init_cap (k : Nat) :
    ∀ r ∈ List.replicate k RoomBox.init, 0 < r.remainingCapacity := by
  intro r hr
  rw [List.eq_of_mem_replicate hr]
  simp [RoomBox.remainingCapacity, RoomBox.total, RoomBox.init, ROOM_CAPACITY]

/-- `setupRooms` hits the anchor dead-end exactly when the adults plus the
seniors left over from the senior-only rooms cannot cover the mixed
rooms. -/
lemma setupRooms_none_iff (roomCount totalAdults totalSeniors totalChildren : Nat) :
    setupRooms roomCount totalAdults totalSeniors totalChildren = none ↔
      totalAdults + (totalSeniors - min totalSeniors
          (pickSeniorOnlyRoomCount roomCount totalAdults totalSeniors totalChildren
            * ROOM_CAPACITY))
        < roomCount
          - pickSeniorOnlyRoomCount roomCount totalAdults totalSeniors totalChildren := by
  unfold setupRooms
  rcases hrec : anchorMixedRooms
      (List.replicate
        (roomCount - pickSeniorOnlyRoomCount roomCount totalAdults totalSeniors totalChildren)
        RoomBox.init)
      totalAdults
      (fillSeniorOnlyRooms
        (List.replicate
          (pickSeniorOnlyRoomCount roomCount totalAdults totalSeniors totalChildren)
          RoomBox.init) totalSeniors).2 with _ | t
  · have h := (anchorMixedRooms_none_iff _ _ _).mp hrec
    rw [fillSeniorOnlyRooms_rem_replicate, List.length_replicate] at h
    simp only [hrec]
    exact ⟨fun _ => h, fun _ => by trivial⟩
  · have h : ¬ (totalAdults +
        (fillSeniorOnlyRooms
          (List.replicate
            (pickSeniorOnlyRoomCount roomCount totalAdults totalSeniors totalChildren)
            RoomBox.init) totalSeniors).2
        < (List.replicate
            (roomCount
              - pickSeniorOnlyRoomCount roomCount totalAdults totalSeniors totalChildren)
            RoomBox.init).length) := fun hc => by
      rw [(anchorMixedRooms_none_iff _ _ _).mpr hc] at hrec
      exact Option.noConfusion hrec
    rw [fillSeniorOnlyRooms_rem_replicate, List.length_replicate] at h
    simp only [hrec]
    constructor
    · intro hc
      exact Option.noConfusion hc
    · intro hc
      exact absurd hc h

/-- On success, `setupRooms` yields the senior-only rooms, the mixed
rooms, and the two leftover pools, with the expected lengths, occupant
sums and capacity invariant. -/
lemma setupRooms_some (roomCount totalAdults totalSeniors totalChildren : Nat)
    (st : List RoomBox × List RoomBox × Nat × Nat)
    (h : setupRooms roomCount totalAdults totalSeniors totalChildren = some st) :
    st.1.length = pickSeniorOnlyRoomCount roomCount totalAdults totalSeniors totalChildren ∧
    st.2.1.length
      = roomCount - pickSeniorOnlyRoomCount roomCount totalAdults totalSeniors totalChildren ∧
    sumBy RoomBox.adults st.1 = 0 ∧
    sumBy RoomBox.adults st.2.1 + st.2.2.1 = totalAdults ∧
    sumBy RoomBox.seniors st.1 + sumBy RoomBox.seniors st.2.1 + st.2.2.2 = totalSeniors ∧
    sumBy RoomBox.children st.1 = 0 ∧
    sumBy RoomBox.children st.2.1 = 0 ∧
    (∀ r ∈ st.1, r.total ≤ ROOM_CAPACITY) ∧
    (∀ r ∈ st.2.1, r.total ≤ ROOM_CAPACITY) := by
  unfold setupRooms at h
  rcases hrec : anchorMixedRooms
      (List.replicate
        (roomCount - pickSeniorOnlyRoomCount roomCount totalAdults totalSeniors totalChildren)
        RoomBox.init)
      totalAdults
      (fillSeniorOnlyRooms
        (List.replicate
          (pickSeniorOnlyRoomCount roomCount totalAdults totalSeniors totalChildren)
          RoomBox.init) totalSeniors).2 with _ | t
  · simp [hrec] at h
  · simp only [hrec, Option.some.injEq] at h
    subst h
    dsimp only
    have hanchor := anchorMixedRooms_some _ _ _ t (replicate_init_cap _) hrec
    have hfillS := fillSeniorOnlyRooms_sum_seniors
      (List.replicate
        (pickSeniorOnlyRoomCount roomCount totalAdults totalSeniors totalChildren)
        RoomBox.init) totalSeniors
    have hfillA := fillSeniorOnlyRooms_sum_adults
      (List.replicate
        (pickSeniorOnlyRoomCount roomCount totalAdults totalSeniors totalChildren)
        RoomBox.init) totalSeniors
    have hfillC := fillSeniorOnlyRooms_sum_children
      (List.replicate
        (pickSeniorOnlyRoomCount roomCount totalAdults totalSeniors totalChildren)
        RoomBox.init) totalSeniors
    have hfillL := fillSeniorOnlyRooms_length
      (List.replicate
        (pickSeniorOnlyRoomCount roomCount totalAdults totalSeniors totalChildren)
        RoomBox.init) totalSeniors
    have hrepA := sumBy_replicate_init RoomBox.adults rfl
      (pickSeniorOnlyRoomCount roomCount totalAdults totalSeniors totalChildren)
    have hrepS := sumBy_replicate_init RoomBox.seniors rfl
      (pickSeniorOnlyRoomCount roomCount totalAdults totalSeniors totalChildren)
    have hrepC := sumBy_replicate_init RoomBox.children rfl
      (pickSeniorOnlyRoomCount roomCount totalAdults totalSeniors totalChildren)
    have hrepA2 := sumBy_replicate_init RoomBox.adults rfl
      (roomCount - pickSeniorOnlyRoomCount roomCount totalAdults totalSeniors totalChildren)
    have hrepS2 := sumBy_replicate_init RoomBox.seniors rfl
      (roomCount - pickSeniorOnlyRoomCount roomCount totalAdults totalSeniors totalChildren)
    have hrepC2 := sumBy_replicate_init RoomBox.children rfl
      (roomCount - pickSeniorOnlyRoomCount roomCount totalAdults totalSeniors totalChildren)
    have hinvF := fillSeniorOnlyRooms_invariant
      (List.replicate
        (pickSeniorOnlyRoomCount roomCount totalAdults totalSeniors totalChildren)
        RoomBox.init) totalSeniors (replicate_init_total _)
    have hinvA := anchorMixedRooms_invariant _ _ _ t (replicate_init_total _) hrec
    rw [List.length_replicate] at hfillL
    rw [List.length_replicate] at hanchor
    refine ⟨hfillL, hanchor.1, by omega, by omega, by omega, by omega, by omega,
      hinvF, hinvA⟩

end RoomAllocator

namespace RoomAllocator

/-! ### Instantiated facts for the five placement helpers -/

lemma addSeniors_one_seniors (r : RoomBox) (h : 0 < r.remainingCapacity) :
    ((r.addSeniors 1).1).seniors = r.seniors + 1 := by
  have hfld := addSeniors_fields r 1
  rw [hfld.2.1]
  omega

lemma addAdults_one_adults (r : RoomBox) (h : 0 < r.remainingCapacity) :
    ((r.addAdults 1).1).adults = r.adults + 1 := by
  have hfld := addAdults_fields r 1
  rw [hfld.1]
  omega

lemma addChildren_one_children (r : RoomBox) (h : 0 < r.remainingCapacity) :
    ((r.addChildren 1).1).children = r.children + 1 := by
  have hfld := addChildren_fields r 1
  rw [hfld.2.2.1]
  omega

lemma placeSeniorsIntoRoomsThatAlreadyHaveSeniors_spec (count : Nat)
    (so mx : List RoomBox) :
    (placeSeniorsIntoRoomsThatAlreadyHaveSeniors count so mx).1.length = so.length ∧
    (placeSeniorsIntoRoomsThatAlreadyHaveSeniors count so mx).2.1.length = mx.length ∧
    sumBy RoomBox.seniors (placeSeniorsIntoRoomsThatAlreadyHaveSeniors count so mx).1
      + sumBy RoomBox.seniors (placeSeniorsIntoRoomsThatAlreadyHaveSeniors count so mx).2.1
      + (placeSeniorsIntoRoomsThatAlreadyHaveSeniors count so mx).2.2
      = sumBy RoomBox.seniors so + sumBy RoomBox.seniors mx + count ∧
    sumBy RoomBox.adults (placeSeniorsIntoRoomsThatAlreadyHaveSeniors count so mx).1
      = sumBy RoomBox.adults so ∧
    sumBy RoomBox.adults (placeSeniorsIntoRoomsThatAlreadyHaveSeniors count so mx).2.1
      = sumBy RoomBox.adults mx ∧
    sumBy RoomBox.children (placeSeniorsIntoRoomsThatAlreadyHaveSeniors count so mx).1
      = sumBy RoomBox.children so ∧
    sumBy RoomBox.children (placeSeniorsIntoRoomsThatAlreadyHaveSeniors count so mx).2.1
      = sumBy RoomBox.children mx ∧
    ((∀ r ∈ so, r.total ≤ ROOM_CAPACITY) → (∀ r ∈ mx, r.total ≤ ROOM_CAPACITY) →
      (∀ r ∈ (placeSeniorsIntoRoomsThatAlreadyHaveSeniors count so mx).1,
        r.total ≤ ROOM_CAPACITY) ∧
      (∀ r ∈ (placeSeniorsIntoRoomsThatAlreadyHaveSeniors count so mx).2.1,
        r.total ≤ ROOM_CAPACITY)) := by
  simp only [placeSeniorsIntoRoomsThatAlreadyHaveSeniors, sweepLoop]
  have hf : ∀ r : RoomBox,
      (decide (0 < r.seniors) && decide (0 < r.remainingCapacity)) = true →
      ((r.addSeniors 1).1).seniors = r.seniors + 1 := by
    intro r hr
    simp only [Bool.and_eq_true, decide_eq_true_eq] at hr
    exact addSeniors_one_seniors r hr.2
  have hga : ∀ r : RoomBox,
      (decide (0 < r.seniors) && decide (0 < r.remainingCapacity)) = true →
      ((r.addSeniors 1).1).adults = r.adults := fun r _ => (addSeniors_fields r 1).1
  have hgc : ∀ r : RoomBox,
      (decide (0 < r.seniors) && decide (0 < r.remainingCapacity)) = true →
      ((r.addSeniors 1).1).children = r.children := fun r _ => (addSeniors_fields r 1).2.2.1
  have hP : ∀ r : RoomBox, r.total ≤ ROOM_CAPACITY →
      (decide (0 < r.seniors) && decide (0 < r.remainingCapacity)) = true →
      ((r.addSeniors 1).1).total ≤ ROOM_CAPACITY := fun r hr _ => addSeniors_total_le r 1 hr
  refine ⟨(sweepLoopAux_length _ _ count so mx count).1,
    (sweepLoopAux_length _ _ count so mx count).2,
    ?_,
    (sweepLoopAux_sum_preserved _ _ RoomBox.adults hga count so mx count).1,
    (sweepLoopAux_sum_preserved _ _ RoomBox.adults hga count so mx count).2,
    (sweepLoopAux_sum_preserved _ _ RoomBox.children hgc count so mx count).1,
    (sweepLoopAux_sum_preserved _ _ RoomBox.children hgc count so mx count).2,
    fun h1 h2 => sweepLoopAux_invariant _ _ _ hP count so mx count h1 h2⟩
  exact sweepLoopAux_sum_inc _ _ RoomBox.seniors hf count so mx count

lemma placeSeniorsAnywhere_spec (count : Nat) (so mx : List RoomBox) :
    (placeSeniorsAnywhere count so mx).1.length = so.length ∧
    (placeSeniorsAnywhere count so mx).2.1.length = mx.length ∧
    sumBy RoomBox.seniors (placeSeniorsAnywhere count so mx).1
      + sumBy RoomBox.seniors (placeSeniorsAnywhere count so mx).2.1
      + (placeSeniorsAnywhere count so mx).2.2
      = sumBy RoomBox.seniors so + sumBy RoomBox.seniors mx + count ∧
    sumBy RoomBox.adults (placeSeniorsAnywhere count so mx).1 = sumBy RoomBox.adults so ∧
    sumBy RoomBox.adults (placeSeniorsAnywhere count so mx).2.1 = sumBy RoomBox.adults mx ∧
    sumBy RoomBox.children (placeSeniorsAnywhere count so mx).1
      = sumBy RoomBox.children so ∧
    sumBy RoomBox.children (placeSeniorsAnywhere count so mx).2.1
      = sumBy RoomBox.children mx ∧
    ((∀ r ∈ so, r.total ≤ ROOM_CAPACITY) → (∀ r ∈ mx, r.total ≤ ROOM_CAPACITY) →
      (∀ r ∈ (placeSeniorsAnywhere count so mx).1, r.total ≤ ROOM_CAPACITY) ∧
      (∀ r ∈ (placeSeniorsAnywhere count so mx).2.1, r.total ≤ ROOM_CAPACITY)) := by
  simp only [placeSeniorsAnywhere, sweepLoop]
  have hf : ∀ r : RoomBox, decide (0 < r.remainingCapacity) = true →
      ((r.addSeniors 1).1).seniors = r.seniors + 1 := by
    intro r hr
    rw [decide_eq_true_eq] at hr
    exact addSeniors_one_seniors r hr
  have hga : ∀ r : RoomBox, decide (0 < r.remainingCapacity) = true →
      ((r.addSeniors 1).1).adults = r.adults := fun r _ => (addSeniors_fields r 1).1
  have hgc : ∀ r : RoomBox, decide (0 < r.remainingCapacity) = true →
      ((r.addSeniors 1).1).children = r.children := fun r _ => (addSeniors_fields r 1).2.2.1
  have hP : ∀ r : RoomBox, r.total ≤ ROOM_CAPACITY →
      decide (0 < r.remainingCapacity) = true →
      ((r.addSeniors 1).1).total ≤ ROOM_CAPACITY := fun r hr _ => addSeniors_total_le r 1 hr
  refine ⟨(sweepLoopAux_length _ _ count so mx count).1,
    (sweepLoopAux_length _ _ count so mx count).2,
    sweepLoopAux_sum_inc _ _ RoomBox.seniors hf count so mx count,
    (sweepLoopAux_sum_preserved _ _ RoomBox.adults hga count so mx count).1,
    (sweepLoopAux_sum_preserved _ _ RoomBox.adults hga count so mx count).2,
    (sweepLoopAux_sum_preserved _ _ RoomBox.children hgc count so mx count).1,
    (sweepLoopAux_sum_preserved _ _ RoomBox.children hgc count so mx count).2,
    fun h1 h2 => sweepLoopAux_invariant _ _ _ hP count so mx count h1 h2⟩

lemma placeAdultsPreferMixedRooms_spec (count : Nat) (mx so : List RoomBox) :
    (placeAdultsPreferMixedRooms count mx so).1.length = mx.length ∧
    (placeAdultsPreferMixedRooms count mx so).2.1.length = so.length ∧
    sumBy RoomBox.adults (placeAdultsPreferMixedRooms count mx so).1
      + sumBy RoomBox.adults (placeAdultsPreferMixedRooms count mx so).2.1
      + (placeAdultsPreferMixedRooms count mx so).2.2
      = sumBy RoomBox.adults mx + sumBy RoomBox.adults so + count ∧
    sumBy RoomBox.seniors (placeAdultsPreferMixedRooms count mx so).1
      = sumBy RoomBox.seniors mx ∧
    sumBy RoomBox.seniors (placeAdultsPreferMixedRooms count mx so).2.1
      = sumBy RoomBox.seniors so ∧
    sumBy RoomBox.children (placeAdultsPreferMixedRooms count mx so).1
      = sumBy RoomBox.children mx ∧
    sumBy RoomBox.children (placeAdultsPreferMixedRooms count mx so).2.1
      = sumBy RoomBox.children so ∧
    ((∀ r ∈ mx, r.total ≤ ROOM_CAPACITY) → (∀ r ∈ so, r.total ≤ ROOM_CAPACITY) →
      (∀ r ∈ (placeAdultsPreferMixedRooms count mx so).1, r.total ≤ ROOM_CAPACITY) ∧
      (∀ r ∈ (placeAdultsPreferMixedRooms count mx so).2.1, r.total ≤ ROOM_CAPACITY)) := by
  simp only [placeAdultsPreferMixedRooms, sweepLoop]
  have hf : ∀ r : RoomBox, decide (0 < r.remainingCapacity) = true →
      ((r.addAdults 1).1).adults = r.adults + 1 := by
    intro r hr
    rw [decide_eq_true_eq] at hr
    exact addAdults_one_adults r hr
  have hgs : ∀ r : RoomBox, decide (0 < r.remainingCapacity) = true →
      ((r.addAdults 1).1).seniors = r.seniors := fun r _ => (addAdults_fields r 1).2.1
  have hgc : ∀ r : RoomBox, decide (0 < r.remainingCapacity) = true →
      ((r.addAdults 1).1).children = r.children := fun r _ => (addAdults_fields r 1).2.2.1
  have hP : ∀ r : RoomBox, r.total ≤ ROOM_CAPACITY →
      decide (0 < r.remainingCapacity) = true →
      ((r.addAdults 1).1).total ≤ ROOM_CAPACITY := fun r hr _ => addAdults_total_le r 1 hr
  have hm1 := sweepLoopAux_length (fun r => decide (0 < r.remainingCapacity))
    (fun r => (r.addAdults 1).1) count mx [] count
  have hmA := sweepLoopAux_sum_inc _ _ RoomBox.adults hf count mx [] count
  have hmS := sweepLoopAux_sum_preserved _ _ RoomBox.seniors hgs count mx [] count
  have hmC := sweepLoopAux_sum_preserved _ _ RoomBox.children hgc count mx [] count
  set rem1 := (sweepLoopAux (fun r => decide (0 < r.remainingCapacity))
    (fun r => (r.addAdults 1).1) count mx [] count).2.2 with hrem1
  have hs1 := sweepLoopAux_length (fun r => decide (0 < r.remainingCapacity))
    (fun r => (r.addAdults 1).1) rem1 so [] rem1
  have hsA := sweepLoopAux_sum_inc _ _ RoomBox.adults hf rem1 so [] rem1
  have hsS := sweepLoopAux_sum_preserved _ _ RoomBox.seniors hgs rem1 so [] rem1
  have hsC := sweepLoopAux_sum_preserved _ _ RoomBox.children hgc rem1 so [] rem1
  have hmnil : (sweepLoopAux (fun r => decide (0 < r.remainingCapacity))
      (fun r => (r.addAdults 1).1) count mx [] count).2.1 = [] :=
    List.length_eq_zero.mp (by simpa using hm1.2)
  have hsnil : (sweepLoopAux (fun r => decide (0 < r.remainingCapacity))
      (fun r => (r.addAdults 1).1) rem1 so [] rem1).2.1 = [] :=
    List.length_eq_zero.mp (by simpa using hs1.2)
  rw [hmnil] at hmA
  rw [hsnil] at hsA
  simp only [sumBy_nil] at hmA hsA
  refine ⟨hm1.1, hs1.1, by omega, by omega, by omega, by omega, by omega, ?_⟩
  intro h1 h2
  exact ⟨(sweepLoopAux_invariant _ _ _ hP count mx [] count h1 (by simp)).1,
    (sweepLoopAux_invariant _ _ _ hP rem1 so [] rem1 h2 (by simp)).1⟩

lemma placeChildrenIntoRoomsWithAdults_spec (count : Nat) (mx so : List RoomBox) :
    (placeChildrenIntoRoomsWithAdults count mx so).1.length = mx.length ∧
    (placeChildrenIntoRoomsWithAdults count mx so).2.1.length = so.length ∧
    sumBy RoomBox.children (placeChildrenIntoRoomsWithAdults count mx so).1
      + sumBy RoomBox.children (placeChildrenIntoRoomsWithAdults count mx so).2.1
      + (placeChildrenIntoRoomsWithAdults count mx so).2.2
      = sumBy RoomBox.children mx + sumBy RoomBox.children so + count ∧
    sumBy RoomBox.adults (placeChildrenIntoRoomsWithAdults count mx so).1
      = sumBy RoomBox.adults mx ∧
    sumBy RoomBox.adults (placeChildrenIntoRoomsWithAdults count mx so).2.1
      = sumBy RoomBox.adults so ∧
    sumBy RoomBox.seniors (placeChildrenIntoRoomsWithAdults count mx so).1
      = sumBy RoomBox.seniors mx ∧
    sumBy RoomBox.seniors (placeChildrenIntoRoomsWithAdults count mx so).2.1
      = sumBy RoomBox.seniors so ∧
    ((∀ r ∈ mx, r.total ≤ ROOM_CAPACITY) → (∀ r ∈ so, r.total ≤ ROOM_CAPACITY) →
      (∀ r ∈ (placeChildrenIntoRoomsWithAdults count mx so).1, r.total ≤ ROOM_CAPACITY) ∧
      (∀ r ∈ (placeChildrenIntoRoomsWithAdults count mx so).2.1, r.total ≤ ROOM_CAPACITY)) := by
  simp only [placeChildrenIntoRoomsWithAdults, sweepLoop]
  have hf : ∀ r : RoomBox,
      (decide (0 < r.adults) && decide (0 < r.remainingCapacity)) = true →
      ((r.addChildren 1).1).children = r.children + 1 := by
    intro r hr
    simp only [Bool.and_eq_true, decide_eq_true_eq] at hr
    exact addChildren_one_children r hr.2
  have hga : ∀ r : RoomBox,
      (decide (0 < r.adults) && decide (0 < r.remainingCapacity)) = true →
      ((r.addChildren 1).1).adults = r.adults := fun r _ => (addChildren_fields r 1).1
  have hgs : ∀ r : RoomBox,
      (decide (0 < r.adults) && decide (0 < r.remainingCapacity)) = true →
      ((r.addChildren 1).1).seniors = r.seniors := fun r _ => (addChildren_fields r 1).2.1
  have hP : ∀ r : RoomBox, r.total ≤ ROOM_CAPACITY →
      (decide (0 < r.adults) && decide (0 < r.remainingCapacity)) = true →
      ((r.addChildren 1).1).total ≤ ROOM_CAPACITY := fun r hr _ => addChildren_total_le r 1 hr
  refine ⟨(sweepLoopAux_length _ _ count mx so count).1,
    (sweepLoopAux_length _ _ count mx so count).2,
    sweepLoopAux_sum_inc _ _ RoomBox.children hf count mx so count,
    (sweepLoopAux_sum_preserved _ _ RoomBox.adults hga count mx so count).1,
    (sweepLoopAux_sum_preserved _ _ RoomBox.adults hga count mx so count).2,
    (sweepLoopAux_sum_preserved _ _ RoomBox.seniors hgs count mx so count).1,
    (sweepLoopAux_sum_preserved _ _ RoomBox.seniors hgs count mx so count).2,
    fun h1 h2 => sweepLoopAux_invariant _ _ _ hP count mx so count h1 h2⟩

lemma placeChildrenIntoRoomsWithSeniors_spec (count : Nat) (mx so : List RoomBox) :
    (placeChildrenIntoRoomsWithSeniors count mx so).1.length = mx.length ∧
    (placeChildrenIntoRoomsWithSeniors count mx so).2.1.length = so.length ∧
    sumBy RoomBox.children (placeChildrenIntoRoomsWithSeniors count mx so).1
      + sumBy RoomBox.children (placeChildrenIntoRoomsWithSeniors count mx so).2.1
      + (placeChildrenIntoRoomsWithSeniors count mx so).2.2
      = sumBy RoomBox.children mx + sumBy RoomBox.children so + count ∧
    sumBy RoomBox.adults (placeChildrenIntoRoomsWithSeniors count mx so).1
      = sumBy RoomBox.adults mx ∧
    sumBy RoomBox.adults (placeChildrenIntoRoomsWithSeniors count mx so).2.1
      = sumBy RoomBox.adults so ∧
    sumBy RoomBox.seniors (placeChildrenIntoRoomsWithSeniors count mx so).1
      = sumBy RoomBox.seniors mx ∧
    sumBy RoomBox.seniors (placeChildrenIntoRoomsWithSeniors count mx so).2.1
      = sumBy RoomBox.seniors so ∧
    ((∀ r ∈ mx, r.total ≤ ROOM_CAPACITY) → (∀ r ∈ so, r.total ≤ ROOM_CAPACITY) →
      (∀ r ∈ (placeChildrenIntoRoomsWithSeniors count mx so).1, r.total ≤ ROOM_CAPACITY) ∧
      (∀ r ∈ (placeChildrenIntoRoomsWithSeniors count mx so).2.1,
        r.total ≤ ROOM_CAPACITY)) := by
  simp only [placeChildrenIntoRoomsWithSeniors, sweepLoop]
  have hf : ∀ r : RoomBox,
      (decide (0 < r.seniors) && decide (0 < r.remainingCapacity)) = true →
      ((r.addChildren 1).1).children = r.children + 1 := by
    intro r hr
    simp only [Bool.and_eq_true, decide_eq_true_eq] at hr
    exact addChildren_one_children r hr.2
  have hga : ∀ r : RoomBox,
      (decide (0 < r.seniors) && decide (0 < r.remainingCapacity)) = true →
      ((r.addChildren 1).1).adults = r.adults := fun r _ => (addChildren_fields r 1).1
  have hgs : ∀ r : RoomBox,
      (decide (0 < r.seniors) && decide (0 < r.remainingCapacity)) = true →
      ((r.addChildren 1).1).seniors = r.seniors := fun r _ => (addChildren_fields r 1).2.1
  have hP : ∀ r : RoomBox, r.total ≤ ROOM_CAPACITY →
      (decide (0 < r.seniors) && decide (0 < r.remainingCapacity)) = true →
      ((r.addChildren 1).1).total ≤ ROOM_CAPACITY := fun r hr _ => addChildren_total_le r 1 hr
  have hsum := sweepLoopAux_sum_inc _ _ RoomBox.children hf count so mx count
  refine ⟨(sweepLoopAux_length _ _ count so mx count).2,
    (sweepLoopAux_length _ _ count so mx count).1,
    by omega,
    (sweepLoopAux_sum_preserved _ _ RoomBox.adults hga count so mx count).2,
    (sweepLoopAux_sum_preserved _ _ RoomBox.adults hga count so mx count).1,
    (sweepLoopAux_sum_preserved _ _ RoomBox.seniors hgs count so mx count).2,
    (sweepLoopAux_sum_preserved _ _ RoomBox.seniors hgs count so mx count).1,
    fun h1 h2 => ?_⟩
  have := sweepLoopAux_invariant _ _ _ hP count so mx count h2 h1
  exact ⟨this.2, this.1⟩

end RoomAllocator

namespace RoomAllocator

/-! ### Characterisation of a successful `distribute` run -/

/-- The facts that hold of the final room boxes whenever `distribute`
returns a non-empty result: right count, exact occupant sums, non-empty
rooms within capacity, and chaperoned children. -/
def goodBoxes (roomCount totalAdults totalSeniors totalChildren : Nat)
    (boxes : List RoomBox) : Prop :=
  boxes.length = roomCount ∧
  sumBy RoomBox.adults boxes = totalAdults ∧
  sumBy RoomBox.seniors boxes = totalSeniors ∧
  sumBy RoomBox.children boxes = totalChildren ∧
  (∀ r ∈ boxes, 0 < r.total) ∧
  (∀ r ∈ boxes, r.total ≤ ROOM_CAPACITY) ∧
  (∀ r ∈ boxes, 0 < r.children → 0 < r.adults + r.seniors)

lemma finalize_shape (roomCount totalAdults totalSeniors totalChildren : Nat)
    (mxF soF : List RoomBox) (remA remS remC : Nat) (res : List Room)
    (hlen : mxF.length + soF.length = roomCount)
    (hA : sumBy RoomBox.adults mxF + sumBy RoomBox.adults soF + remA = totalAdults)
    (hS : sumBy RoomBox.seniors mxF + sumBy RoomBox.seniors soF + remS = totalSeniors)
    (hC : sumBy RoomBox.children mxF + sumBy RoomBox.children soF + remC = totalChildren)
    (hinv : ∀ r ∈ mxF ++ soF, r.total ≤ ROOM_CAPACITY)
    (hres : res =
      if 0 < remA ∨ 0 < remS ∨ 0 < remC then []
      else if (mxF ++ soF).any (fun r => decide (r.total ≤ 0)) then []
      else if (mxF ++ soF).any
          (fun r => decide (0 < r.children) && decide (r.adults + r.seniors = 0)) then []
      else List.insertionSort roomLE ((mxF ++ soF).map RoomBox.toRoom)) :
    res = [] ∨
    ∃ boxes : List RoomBox,
      res = List.insertionSort roomLE (boxes.map RoomBox.toRoom) ∧
      goodBoxes roomCount totalAdults totalSeniors totalChildren boxes := by
  by_cases hr : 0 < remA ∨ 0 < remS ∨ 0 < remC
  · left
    rw [hres, if_pos hr]
  · rw [hres, if_neg hr]
    by_cases hempty : (mxF ++ soF).any (fun r => decide (r.total ≤ 0)) = true
    · left
      rw [if_pos hempty]
    · rw [if_neg hempty]
      by_cases hlone : (mxF ++ soF).any
          (fun r => decide (0 < r.children) && decide (r.adults + r.seniors = 0)) = true
      · left
        rw [if_pos hlone]
      · rw [if_neg hlone]
        right
        refine ⟨mxF ++ soF, rfl, ?_, ?_, ?_, ?_, ?_, hinv, ?_⟩
        · rw [List.length_append]
          exact hlen
        · rw [sumBy_append]
          omega
        · rw [sumBy_append]
          omega
        · rw [sumBy_append]
          omega
        · simp only [List.any_eq_true, decide_eq_true_eq, not_exists, not_and] at hempty
          intro r hrm
          have := hempty r hrm
          omega
        · simp only [List.any_eq_true, Bool.and_eq_true, decide_eq_true_eq, not_exists,
            not_and] at hlone
          intro r hrm hc
          have := hlone r hrm
          omega

lemma distribute_shape (roomCount totalAdults totalSeniors totalChildren : Nat) :
    distribute roomCount totalAdults totalSeniors totalChildren = [] ∨
    ∃ boxes : List RoomBox,
      distribute roomCount totalAdults totalSeniors totalChildren
        = List.insertionSort roomLE (boxes.map RoomBox.toRoom) ∧
      goodBoxes roomCount totalAdults totalSeniors totalChildren boxes := by
  by_cases hf : isFeasible roomCount totalAdults totalSeniors totalChildren
  case neg =>
    left
    simp [distribute, hf]
  rcases hst : setupRooms roomCount totalAdults totalSeniors totalChildren with _ | st
  · left
    simp [distribute, hst]
  · have hsetup := setupRooms_some roomCount totalAdults totalSeniors totalChildren st hst
    rcases h1 : placeSeniorsIntoRoomsThatAlreadyHaveSeniors st.2.2.2 st.1 st.2.1
      with ⟨so1, mx1, remS1⟩
    rcases h2 : placeSeniorsAnywhere remS1 so1 mx1 with ⟨so2, mx2, remS2⟩
    rcases h3 : placeAdultsPreferMixedRooms st.2.2.1 mx2 so2 with ⟨mx3, so3, remA3⟩
    rcases h4 : placeChildrenIntoRoomsWithAdults totalChildren mx3 so3
      with ⟨mx4, so4, remC4⟩
    have B1 := placeSeniorsIntoRoomsThatAlreadyHaveSeniors_spec st.2.2.2 st.1 st.2.1
    rw [h1] at B1
    dsimp only at B1
    have B2 := placeSeniorsAnywhere_spec remS1 so1 mx1
    rw [h2] at B2
    dsimp only at B2
    have B3 := placeAdultsPreferMixedRooms_spec st.2.2.1 mx2 so2
    rw [h3] at B3
    dsimp only at B3
    have B4 := placeChildrenIntoRoomsWithAdults_spec totalChildren mx3 so3
    rw [h4] at B4
    dsimp only at B4
    have hinv12 := B1.2.2.2.2.2.2.2 hsetup.2.2.2.2.2.2.2.1 hsetup.2.2.2.2.2.2.2.2
    have hinv2 := B2.2.2.2.2.2.2.2 hinv12.1 hinv12.2
    have hinv3 := B3.2.2.2.2.2.2.2 hinv2.2 hinv2.1
    have hinv4 := B4.2.2.2.2.2.2.2 hinv3.1 hinv3.2
    by_cases hc4 : 0 < remC4
    · rcases h5 : placeChildrenIntoRoomsWithSeniors remC4 mx4 so4 with ⟨mx5, so5, remC5⟩
      have B5 := placeChildrenIntoRoomsWithSeniors_spec remC4 mx4 so4
      rw [h5] at B5
      dsimp only at B5
      have hinv5 := B5.2.2.2.2.2.2.2 hinv4.1 hinv4.2
      refine finalize_shape roomCount totalAdults totalSeniors totalChildren mx5 so5
        remA3 remS2 remC5 _ ?_ ?_ ?_ ?_ ?_ ?_
      · have hq := pickSeniorOnlyRoomCount_le roomCount totalAdults totalSeniors totalChildren
        have := hsetup.1
        have := hsetup.2.1
        omega
      · have := hsetup.2.2.1
        have := hsetup.2.2.2.1
        omega
      · have := hsetup.2.2.2.2.1
        omega
      · have := hsetup.2.2.2.2.2.1
        have := hsetup.2.2.2.2.2.2.1
        omega
      · intro r hr
        rcases List.mem_append.mp hr with hm | hm
        · exact hinv5.1 r hm
        · exact hinv5.2 r hm
      · simp only [distribute, hf, hst, h1, h2, h3, h4, h5, hc4, if_true, not_true,
          Bool.not_eq_true, if_false]
    · refine finalize_shape roomCount totalAdults totalSeniors totalChildren mx4 so4
        remA3 remS2 remC4 _ ?_ ?_ ?_ ?_ ?_ ?_
      · have hq := pickSeniorOnlyRoomCount_le roomCount totalAdults totalSeniors totalChildren
        have := hsetup.1
        have := hsetup.2.1
        omega
      · have := hsetup.2.2.1
        have := hsetup.2.2.2.1
        omega
      · have := hsetup.2.2.2.2.1
        omega
      · have := hsetup.2.2.2.2.2.1
        have := hsetup.2.2.2.2.2.2.1
        omega
      · intro r hr
        rcases List.mem_append.mp hr with hm | hm
        · exact hinv4.1 r hm
        · exact hinv4.2 r hm
      · simp only [distribute, hf, hst, h1, h2, h3, h4]
        simp [hc4]

end RoomAllocator

namespace RoomAllocator

lemma sum_map_sorted (boxes : List RoomBox) (f : Room → Nat) (g : RoomBox → Nat)
    (hfg : ∀ r, f (RoomBox.toRoom r) = g r) :
    ((List.insertionSort roomLE (boxes.map RoomBox.toRoom)).map f).sum = sumBy g boxes := by
  have hperm := (List.perm_insertionSort roomLE (boxes.map RoomBox.toRoom)).map f
  rw [hperm.sum_eq, List.map_map, sumBy]
  congr 1
  exact List.map_congr_left (fun r _ => hfg r)

lemma mem_sorted_iff (boxes : List RoomBox) (room : Room) :
    room ∈ List.insertionSort roomLE (boxes.map RoomBox.toRoom) ↔
      ∃ b ∈ boxes, RoomBox.toRoom b = room := by
  rw [(List.perm_insertionSort roomLE (boxes.map RoomBox.toRoom)).mem_iff, List.mem_map]

/-- C1: on every input of non-negative integers on which `distribute`
returns a non-empty sequence of rooms, the sum of the `adults` fields over
the returned rooms equals the input adults total, the sum of the `seniors`
fields equals the input seniors total, and the sum of the `children`
fields equals the input children total. -/
theorem distribute_preserves_totals
    (roomCount totalAdults totalSeniors totalChildren : Nat)
    (h : distribute roomCount totalAdults totalSeniors totalChildren ≠ []) :
    ((distribute roomCount totalAdults totalSeniors totalChildren).map Room.adults).sum
      = totalAdults ∧
    ((distribute roomCount totalAdults totalSeniors totalChildren).map Room.seniors).sum
      = totalSeniors ∧
    ((distribute roomCount totalAdults totalSeniors totalChildren).map Room.children).sum
      = totalChildren := by
  rcases distribute_shape roomCount totalAdults totalSeniors totalChildren with h0 |
    ⟨boxes, heq, hgood⟩
  · exact absurd h0 h
  · rw [heq]
    refine ⟨?_, ?_, ?_⟩
    · rw [sum_map_sorted boxes Room.adults RoomBox.adults (fun r => rfl)]
      exact hgood.2.1
    · rw [sum_map_sorted boxes Room.seniors RoomBox.seniors (fun r => rfl)]
      exact hgood.2.2.1
    · rw [sum_map_sorted boxes Room.children RoomBox.children (fun r => rfl)]
      exact hgood.2.2.2.1

/-- C1 witness: at input (2, 2, 2, 1) the result is non-empty and the
sums are 2, 2 and 1. -/
theorem distribute_preserves_totals_witness :
    distribute 2 2 2 1 ≠ [] ∧
    ((distribute 2 2 2 1).map Room.adults).sum = 2 ∧
    ((distribute 2 2 2 1).map Room.seniors).sum = 2 ∧
    ((distribute 2 2 2 1).map Room.children).sum = 1 :=
  ⟨by decide, distribute_preserves_totals 2 2 2 1 (by decide)⟩

/-- C2: on every input on which `distribute` returns a non-empty sequence,
every returned room holding a child also holds at least one adult or
senior. -/
theorem distribute_children_chaperoned
    (roomCount totalAdults totalSeniors totalChildren : Nat)
    (h : distribute roomCount totalAdults totalSeniors totalChildren ≠ []) :
    ∀ room ∈ distribute roomCount totalAdults totalSeniors totalChildren,
      0 < room.children → 1 ≤ room.adults + room.seniors := by
  rcases distribute_shape roomCount totalAdults totalSeniors totalChildren with h0 |
    ⟨boxes, heq, hgood⟩
  · exact absurd h0 h
  · intro room hm hc
    rw [heq, mem_sorted_iff] at hm
    obtain ⟨b, hb, rfl⟩ := hm
    have := hgood.2.2.2.2.2.2 b hb
    simp only [RoomBox.toRoom] at hc ⊢
    omega

/-- C2 witness: at input (2, 2, 2, 1) the returned room (2, 0, 1) holds a
child and an adult. -/
theorem distribute_children_chaperoned_witness :
    distribute 2 2 2 1 ≠ [] ∧ (⟨2, 0, 1⟩ : Room) ∈ distribute 2 2 2 1 ∧
    0 < (⟨2, 0, 1⟩ : Room).children ∧
    1 ≤ (⟨2, 0, 1⟩ : Room).adults + (⟨2, 0, 1⟩ : Room).seniors :=
  ⟨by decide, by decide, by decide,
    distribute_children_chaperoned 2 2 2 1 (by decide) ⟨2, 0, 1⟩ (by decide) (by decide)⟩

/-- C3: on every input on which `distribute` returns a non-empty sequence,
every returned room has between 1 and `ROOM_CAPACITY` occupants, and each
of its three fields is a non-negative integer. -/
theorem distribute_rooms_within_capacity
    (roomCount totalAdults totalSeniors totalChildren : Nat)
    (h : distribute roomCount totalAdults totalSeniors totalChildren ≠ []) :
    ∀ room ∈ distribute roomCount totalAdults totalSeniors totalChildren,
      1 ≤ room.adults + room.seniors + room.children ∧
      room.adults + room.seniors + room.children ≤ ROOM_CAPACITY ∧
      0 ≤ room.adults ∧ 0 ≤ room.seniors ∧ 0 ≤ room.children := by
  rcases distribute_shape roomCount totalAdults totalSeniors totalChildren with h0 |
    ⟨boxes, heq, hgood⟩
  · exact absurd h0 h
  · intro room hm
    rw [heq, mem_sorted_iff] at hm
    obtain ⟨b, hb, rfl⟩ := hm
    have h1 := hgood.2.2.2.2.1 b hb
    have h2 := hgood.2.2.2.2.2.1 b hb
    simp only [RoomBox.toRoom, RoomBox.total] at h1 h2 ⊢
    omega

/-- C3 witness: at input (2, 2, 2, 1) the returned room (2, 0, 1) has 3
occupants, between 1 and the capacity 4. -/
theorem distribute_rooms_within_capacity_witness :
    distribute 2 2 2 1 ≠ [] ∧ (⟨2, 0, 1⟩ : Room) ∈ distribute 2 2 2 1 ∧
    (1 ≤ 2 + 0 + 1 ∧ 2 + 0 + 1 ≤ ROOM_CAPACITY ∧ 0 ≤ 2 ∧ (0 : Nat) ≤ 0 ∧ 0 ≤ 1) :=
  ⟨by decide, by decide,
    distribute_rooms_within_capacity 2 2 2 1 (by decide) ⟨2, 0, 1⟩ (by decide)⟩

/-- C4: `distribute` returns the empty sequence whenever the room count is
zero, the population is too small to keep every room non-empty, the
population exceeds the total capacity, or there are children but no adult
or senior. -/
theorem distribute_infeasible_empty
    (roomCount totalAdults totalSeniors totalChildren : Nat)
    (h : roomCount ≤ 0 ∨
      totalAdults + totalSeniors + totalChildren < roomCount ∨
      totalAdults + totalSeniors + totalChildren > roomCount * ROOM_CAPACITY ∨
      (0 < totalChildren ∧ totalAdults + totalSeniors = 0)) :
    distribute roomCount totalAdults totalSeniors totalChildren = [] := by
  have hif : isFeasible roomCount totalAdults totalSeniors totalChildren = false := by
    simp only [isFeasible]
    split_ifs with h1 h2 h3 h4
    · rfl
    · rfl
    · rfl
    · rfl
    · omega
  simp [distribute, hif]

/-- C4 witness: one room cannot hold the 5 people of input (1, 3, 1, 1). -/
theorem distribute_infeasible_empty_witness :
    ((1 : Nat) ≤ 0 ∨ 3 + 1 + 1 < 1 ∨ 3 + 1 + 1 > 1 * ROOM_CAPACITY ∨
      (0 < 1 ∧ 3 + 1 = 0)) ∧
    distribute 1 3 1 1 = [] :=
  ⟨by decide, distribute_infeasible_empty 1 3 1 1 (by decide)⟩

/-- C5: the sequence returned by `distribute` is sorted non-increasingly
by the lexicographic triple (adults, seniors, children): each room beats
the next on adults, or ties on adults and beats it on seniors, or ties on
both and has at least as many children. -/
theorem distribute_sorted (roomCount totalAdults totalSeniors totalChildren : Nat) :
    List.Chain'
      (fun r1 r2 : Room => r2.adults < r1.adults ∨
        (r2.adults = r1.adults ∧ (r2.seniors < r1.seniors ∨
          (r2.seniors = r1.seniors ∧ r2.children ≤ r1.children))))
      (distribute roomCount totalAdults totalSeniors totalChildren) := by
  rcases distribute_shape roomCount totalAdults totalSeniors totalChildren with h0 |
    ⟨boxes, heq, hgood⟩
  · rw [h0]
    exact List.chain'_nil
  · rw [heq]
    have hs := List.sorted_insertionSort roomLE (boxes.map RoomBox.toRoom)
    exact List.Pairwise.chain' hs

end RoomAllocator

namespace RoomAllocator

/-- C6 counterexample: the input (roomCount 2, adults 1, seniors 0,
children 5) passes the Phase-0 feasibility checks, yet the Phase-4 anchor
dead-end is reached — `setupRooms` takes the defensive branch and
`distribute` returns the empty sequence from inside the anchor loop. -/
theorem anchor_deadend_reachable :
    isFeasible 2 1 0 5 = true ∧ setupRooms 2 1 0 5 = none ∧ distribute 2 1 0 5 = [] :=
  ⟨by decide, by decide, by decide⟩

/-- C6 (amended): for every input of non-negative integers that passes
the Phase-0 feasibility checks AND whose chosen senior-only quota `q`
satisfies the anchor inequality
`adults + (seniors − min(seniors, q·CAPACITY)) ≥ roomCount − q`
(which in particular the shrink loop guarantees whenever `q > 0`), the
Phase-4 anchor dead-end is unreachable: `setupRooms` does not take the
defensive empty-result branch. -/
theorem anchor_deadend_unreachable
    (roomCount totalAdults totalSeniors totalChildren : Nat)
    (_hfeas : isFeasible roomCount totalAdults totalSeniors totalChildren = true)
    (hanchor : roomCount
        - pickSeniorOnlyRoomCount roomCount totalAdults totalSeniors totalChildren
      ≤ totalAdults + (totalSeniors - min totalSeniors
          (pickSeniorOnlyRoomCount roomCount totalAdults totalSeniors totalChildren
            * ROOM_CAPACITY))) :
    setupRooms roomCount totalAdults totalSeniors totalChildren ≠ none := by
  rw [Ne, setupRooms_none_iff]
  omega

/-- C6 witness: input (2, 2, 2, 1) is feasible, its quota 1 satisfies the
anchor inequality, and the dead-end is not reached. -/
theorem anchor_deadend_unreachable_witness :
    isFeasible 2 2 2 1 = true ∧
    (2 - pickSeniorOnlyRoomCount 2 2 2 1
      ≤ 2 + (2 - min 2 (pickSeniorOnlyRoomCount 2 2 2 1 * ROOM_CAPACITY))) ∧
    setupRooms 2 2 2 1 ≠ none :=
  ⟨by decide, by decide, anchor_deadend_unreachable 2 2 2 1 (by decide) (by decide)⟩

/-- C7: for positive room counts, `pickSeniorOnlyRoomCount` returns
exactly the value the spec describes — start from
`min (max 0 (roomCount − ceil((adults+children)/CAPACITY)))
(ceil(seniors/CAPACITY))` and decrement while positive and
`adults + (seniors − min(seniors, q·CAPACITY)) < roomCount − q` — and the
returned quota lies in the range `0..roomCount`. -/
theorem pickSeniorOnlyRoomCount_matches_spec
    (roomCount numAdults numSeniors numChildren : Nat) (_h : 0 < roomCount) :
    pickSeniorOnlyRoomCount roomCount numAdults numSeniors numChildren
      = pickSeniorOnlyRoomCountSpec roomCount numAdults numSeniors numChildren ∧
    pickSeniorOnlyRoomCount roomCount numAdults numSeniors numChildren ≤ roomCount := by
  constructor
  · simp only [pickSeniorOnlyRoomCount, pickSeniorOnlyRoomCountSpec]
    exact shrinkQuota_eq_spec roomCount numAdults numSeniors _
  · exact pickSeniorOnlyRoomCount_le roomCount numAdults numSeniors numChildren

/-- C7 witness: at input (4, 1, 8, 3) the quota procedure matches the
spec and yields a quota within 0..4. -/
theorem pickSeniorOnlyRoomCount_matches_spec_witness :
    (0 : Nat) < 4 ∧
    (pickSeniorOnlyRoomCount 4 1 8 3 = pickSeniorOnlyRoomCountSpec 4 1 8 3 ∧
      pickSeniorOnlyRoomCount 4 1 8 3 ≤ 4) :=
  ⟨by decide, pickSeniorOnlyRoomCount_matches_spec 4 1 8 3 (by decide)⟩

/-- C8: for every `RoomBox` state within capacity and every count `n`,
each of `addAdults n`, `addSeniors n`, `addChildren n` increases exactly
its own field by `min n remainingCapacity`, leaves the other two fields
unchanged, returns the number actually added, and preserves
`total ≤ ROOM_CAPACITY` (fields are naturals, hence never negative, and
the operations are total functions — they cannot throw). -/
theorem roomBox_add_spec (r : RoomBox) (n : Nat) (h : r.total ≤ ROOM_CAPACITY) :
    ((r.addAdults n).1.adults = r.adults + min n r.remainingCapacity ∧
      (r.addAdults n).1.seniors = r.seniors ∧
      (r.addAdults n).1.children = r.children ∧
      (r.addAdults n).2 = min n r.remainingCapacity ∧
      (r.addAdults n).1.total ≤ ROOM_CAPACITY) ∧
    ((r.addSeniors n).1.seniors = r.seniors + min n r.remainingCapacity ∧
      (r.addSeniors n).1.adults = r.adults ∧
      (r.addSeniors n).1.children = r.children ∧
      (r.addSeniors n).2 = min n r.remainingCapacity ∧
      (r.addSeniors n).1.total ≤ ROOM_CAPACITY) ∧
    ((r.addChildren n).1.children = r.children + min n r.remainingCapacity ∧
      (r.addChildren n).1.adults = r.adults ∧
      (r.addChildren n).1.seniors = r.seniors ∧
      (r.addChildren n).2 = min n r.remainingCapacity ∧
      (r.addChildren n).1.total ≤ ROOM_CAPACITY) :=
  ⟨⟨(addAdults_fields r n).1, (addAdults_fields r n).2.1, (addAdults_fields r n).2.2.1,
      (addAdults_fields r n).2.2.2, addAdults_total_le r n h⟩,
    ⟨(addSeniors_fields r n).2.1, (addSeniors_fields r n).1, (addSeniors_fields r n).2.2.1,
      (addSeniors_fields r n).2.2.2, addSeniors_total_le r n h⟩,
    ⟨(addChildren_fields r n).2.2.1, (addChildren_fields r n).1, (addChildren_fields r n).2.1,
      (addChildren_fields r n).2.2.2, addChildren_total_le r n h⟩⟩

/-- C8 witness: the box (1, 1, 0) with 7 more adults requested saturates
at capacity: it gains `min 7 2 = 2` adults and stays within capacity. -/
theorem roomBox_add_spec_witness :
    (⟨1, 1, 0⟩ : RoomBox).total ≤ ROOM_CAPACITY ∧
    (((⟨1, 1, 0⟩ : RoomBox).addAdults 7).1.adults
        = 1 + min 7 (⟨1, 1, 0⟩ : RoomBox).remainingCapacity ∧
      ((⟨1, 1, 0⟩ : RoomBox).addAdults 7).1.seniors = 1 ∧
      ((⟨1, 1, 0⟩ : RoomBox).addAdults 7).1.children = 0 ∧
      ((⟨1, 1, 0⟩ : RoomBox).addAdults 7).2
        = min 7 (⟨1, 1, 0⟩ : RoomBox).remainingCapacity ∧
      ((⟨1, 1, 0⟩ : RoomBox).addAdults 7).1.total ≤ ROOM_CAPACITY) :=
  ⟨by decide, (roomBox_add_spec ⟨1, 1, 0⟩ 7 (by decide)).1⟩

/-- C9: every "sweep until no progress" loop in `distribute` terminates:
a full sweep pass either places nobody — leaving the remaining count
unchanged, so the loop exits — or places at least one person, strictly
decreasing the remaining count; and `sweepLoop` satisfies the
`while (remaining > 0)` loop equation, so the loop is well defined on
every input. -/
theorem sweep_loops_terminate :
    (∀ (pred : RoomBox → Bool) (place : RoomBox → RoomBox)
        (l1 l2 : List RoomBox) (rem : Nat),
      ((sweepPass pred place l1 l2 rem).2.2.2 = false ∧
        (sweepPass pred place l1 l2 rem).2.2.1 = rem) ∨
      (sweepPass pred place l1 l2 rem).2.2.1 < rem) ∧
    (∀ (pred : RoomBox → Bool) (place : RoomBox → RoomBox)
        (l1 l2 : List RoomBox) (rem : Nat),
      sweepLoop pred place l1 l2 rem =
        if rem ≤ 0 then (l1, l2, rem)
        else
          if (sweepPass pred place l1 l2 rem).2.2.2 then
            sweepLoop pred place (sweepPass pred place l1 l2 rem).1
              (sweepPass pred place l1 l2 rem).2.1 (sweepPass pred place l1 l2 rem).2.2.1
          else ((sweepPass pred place l1 l2 rem).1, (sweepPass pred place l1 l2 rem).2.1,
            (sweepPass pred place l1 l2 rem).2.2.1)) := by
  constructor
  · intro pred place l1 l2 rem
    by_cases hpl : (sweepPass pred place l1 l2 rem).2.2.2 = true
    · right
      exact sweepPass_progress pred place l1 l2 rem hpl
    · left
      simp only [Bool.not_eq_true] at hpl
      exact ⟨hpl, sweepPass_not_placed pred place l1 l2 rem hpl⟩
  · exact sweepLoop_eq

/-- C10: whenever `distribute` returns a non-empty sequence, it contains
exactly `roomCount` rooms. -/
theorem distribute_length (roomCount totalAdults totalSeniors totalChildren : Nat)
    (h : distribute roomCount totalAdults totalSeniors totalChildren ≠ []) :
    (distribute roomCount totalAdults totalSeniors totalChildren).length = roomCount := by
  rcases distribute_shape roomCount totalAdults totalSeniors totalChildren with h0 |
    ⟨boxes, heq, hgood⟩
  · exact absurd h0 h
  · rw [heq, List.length_insertionSort, List.length_map]
    exact hgood.1

/-- C10 witness: at input (2, 2, 2, 1) the result has exactly 2 rooms. -/
theorem distribute_length_witness :
    distribute 2 2 2 1 ≠ [] ∧ (distribute 2 2 2 1).length = 2 :=
  ⟨by decide, distribute_length 2 2 2 1 (by decide)⟩

end RoomAllocator
